import Mathlib

/-!
Verification of the tile-grid reconstruction and compositing scripts of the
Generating-Synthetic-Satellite-Imagery repository
(`SPADE/Synt_Sat_Scripts/build_z2_from_z1_tiles_no_real.py`,
`SPADE/build_z2_from_z1_tiles.py`, `SPADE/Synt_Sat_Scripts/stitch_full_mosaic.py`).

The Python scripts are shallowly embedded: filenames are `String`s, directory
listings are `List String`, the image codec is an opaque read function
`String → Option PImage` (`none` models a read that raises), and each script's
`main` is a pure function returning `Except String` (the `.error` case models
`SystemExit` / an uncaught exception, i.e. a non-zero process exit).

Modelling conventions:
* Python `str.isdigit` / `int(...)` are modelled over ASCII decimal digits,
  which is the shape the spec and the repository's tile names use.
* Python string comparison (used by `sort()` / `sorted()`) is modelled by
  `strLe`, lexicographic comparison of code points.
* `int(math.sqrt(N))` is modelled as the exact floor square root (`isqrt`);
  floating-point rounding of `math.sqrt` is out of scope.
-/

deriving instance DecidableEq for Except

/-- Lexicographic comparison of code-point lists; models Python `str` order. -/
def listLe : List Char → List Char → Bool
  | [], _ => true
  | _ :: _, [] => false
  | a :: as, b :: bs =>
    if a.toNat < b.toNat then true
    else if b.toNat < a.toNat then false
    else listLe as bs

/-- Python's `s1 <= s2` on strings (lexicographic by code point). -/
def strLe (a b : String) : Prop := listLe a.data b.data = true

instance : DecidableRel strLe := fun a b => by unfold strLe; infer_instance

instance : IsTotal String strLe := by
  constructor
  intro a b
  show listLe a.data b.data = true ∨ listLe b.data a.data = true
  generalize a.data = u
  generalize b.data = v
  induction u generalizing v with
  | nil => left; rfl
  | cons x xs ih =>
    cases v with
    | nil => right; rfl
    | cons y ys =>
      simp only [listLe]
      rcases Nat.lt_trichotomy x.toNat y.toNat with h | h | h
      · left; simp [h]
      · have h1 : ¬ x.toNat < y.toNat := by omega
        have h2 : ¬ y.toNat < x.toNat := by omega
        rcases ih ys with hc | hc
        · left; simp [h1, h2, hc]
        · right; simp [h1, h2, hc]
      · right; simp [h, Nat.lt_asymm h]

instance : IsTrans String strLe := by
  constructor
  intro a b c
  show listLe a.data b.data = true → listLe b.data c.data = true →
    listLe a.data c.data = true
  generalize a.data = u
  generalize b.data = v
  generalize c.data = w
  induction u generalizing v w with
  | nil => intro _ _; rfl
  | cons x xs ih =>
    intro hab hbc
    cases v with
    | nil => simp [listLe] at hab
    | cons y ys =>
      cases w with
      | nil => simp [listLe] at hbc
      | cons z zs =>
        simp only [listLe] at hab hbc ⊢
        by_cases hxz : x.toNat < z.toNat
        · simp [hxz]
        · by_cases hxy : x.toNat < y.toNat
          · by_cases hyz : y.toNat < z.toNat
            · omega
            · by_cases hzy : z.toNat < y.toNat
              · simp [hxy, hyz, hzy] at hbc
              · omega
          · by_cases hyx : y.toNat < x.toNat
            · simp [hxy, hyx] at hab
            · by_cases hyz : y.toNat < z.toNat
              · omega
              · by_cases hzy : z.toNat < y.toNat
                · simp [hyz, hzy] at hbc
                · have hzx : ¬ z.toNat < x.toNat := by omega
                  simp [hxy, hyx] at hab
                  simp [hyz, hzy] at hbc
                  simp [hxz, hzx]
                  exact ih ys zs hab hbc

/-- Model of Python `sorted` / `list.sort` on strings. -/
def sortStrings (l : List String) : List String := List.insertionSort strLe l

/-- ASCII lower-casing of one character (model of `str.lower` on filenames). -/
def asciiLower (c : Char) : Char :=
  if 65 ≤ c.toNat ∧ c.toNat ≤ 90 then Char.ofNat (c.toNat + 32) else c

/-- Model of `f.lower().endswith('.png')`. -/
def endsWithPng (f : String) : Bool :=
  List.isSuffixOf ['.', 'p', 'n', 'g'] (f.data.map asciiLower)

/-- Model of `read_pngs_sorted`: keep `.png` entries of a directory listing and
sort them (both scripts define this helper identically). -/
def read_pngs_sorted (files : List String) : List String :=
  sortStrings (files.filter endsWithPng)

/-- Model of Python `str.isdigit` restricted to ASCII decimal digits (true iff
the string is non-empty and every character is `0`–`9`). -/
def pyIsDigit (cs : List Char) : Bool :=
  !cs.isEmpty && cs.all Char.isDigit

/-- Value of an all-digit string under Python `int(...)` (decimal fold). -/
def decimalVal (cs : List Char) : Nat :=
  cs.foldl (fun a c => 10 * a + (c.toNat - 48)) 0

/-- Stem of `os.path.splitext` for a plain filename (no directory part): cut at
the last dot, except that a name whose characters before the last dot are all
dots (e.g. `.png`, `..png`) is returned whole. -/
def pySplitextStem (cs : List Char) : List Char :=
  match ((List.range cs.length).filter (fun i => cs.getD i ' ' == '.')).getLast? with
  | none => cs
  | some i =>
      if (List.range i).any (fun j => !(cs.getD j ' ' == '.')) then cs.take i else cs

/-- Model of `parse_xy_from_name` (identical in all three scripts): strip the
extension, split the stem on `_`, and if the last two segments are both
all-digit return them as integers, else `None`. -/
def parse_xy_from_name (name : String) : Option (Nat × Nat) :=
  let base := pySplitextStem name.data
  let parts := List.splitOn '_' base
  if parts.length < 2 then none
  else
    let x_part := parts.getD (parts.length - 2) []
    let y_part := parts.getD (parts.length - 1) []
    if pyIsDigit x_part && pyIsDigit y_part then
      some (decimalVal x_part, decimalVal y_part)
    else none

/-! ## Grid model

`grid[y][x]` in Python becomes a `List (List (Option String))`, rows indexed
by `y`, cells by `x`; `none` is a hole. -/

abbrev Grid := List (List (Option String))

/-- Read `grid[y][x]` (out-of-range reads yield `none`; the scripts only read
in-range cells). -/
def getCell (g : Grid) (x y : Nat) : Option String := (g.getD y []).getD x none

/-- Write `grid[y][x] = fname`. -/
def setCell (g : Grid) (x y : Nat) (f : String) : Grid :=
  g.set y ((g.getD y []).set x (some f))

/-- The freshly allocated all-`None` grid. -/
def emptyGrid (w h : Nat) : Grid := List.replicate h (List.replicate w (none : Option String))

/-- The `(x, y, fname)` triples of the names that parse (loop at the top of
`reorder_with_coordinates`). -/
def coordTriples (fnames : List String) : List (Nat × Nat × String) :=
  fnames.filterMap (fun f => (parse_xy_from_name f).map (fun xy => (xy.1, xy.2, f)))

/-- One iteration of the placement loop of `reorder_with_coordinates`:
`if y < height and x < width: grid[y][x] = fname`. -/
def placeCoord (height width : Nat) (g : Grid) (c : Nat × Nat × String) : Grid :=
  if c.2.1 < height ∧ c.1 < width then setCell g c.1 c.2.1 c.2.2 else g

/-- Model of `reorder_with_coordinates` (identical in all three scripts):
grid dimensions are max parsed coordinate + 1, every parsed name is placed at
its coordinate (later list entries overwrite earlier ones), and `ordered` is
the row-major traversal of the non-hole cells. -/
def reorder_with_coordinates (fnames : List String) :
    Option (List String × Nat × Nat × Grid) :=
  let coords := coordTriples fnames
  if coords.isEmpty then none
  else
    let max_x := (coords.map (fun c => c.1)).foldl max 0
    let max_y := (coords.map (fun c => c.2.1)).foldl max 0
    let width := max_x + 1
    let height := max_y + 1
    let grid := coords.foldl (placeCoord height width) (emptyGrid width height)
    let ordered := (grid.map (fun row => row.filterMap id)).flatten
    some (ordered, width, height, grid)

/-- Cells of one row of the truncating fill loop (`if k < N: grid[y][x] =
names[k]; k += 1`); returns the row and the updated counter. -/
def fillRowCells (names : List String) (k w : Nat) : List (Option String) × Nat :=
  match w with
  | 0 => ([], k)
  | w' + 1 =>
    if h : k < names.length then
      let rest := fillRowCells names (k + 1) w'
      (some (names.get ⟨k, h⟩) :: rest.1, rest.2)
    else
      let rest := fillRowCells names k w'
      ((none : Option String) :: rest.1, rest.2)

/-- The complete truncating row-major fill used by both block scripts for the
explicit-width fallback and for laying `order_list` into a grid. -/
def fillRowsTrunc (names : List String) (k hh ww : Nat) : Grid :=
  match hh with
  | 0 => []
  | h' + 1 =>
    let row := fillRowCells names k ww
    row.1 :: fillRowsTrunc names row.2 h' ww

/-- Exact ceiling division; models `math.ceil(n / m)` for `1 ≤ m`. -/
def ceilDiv (n m : Nat) : Nat := (n + m - 1) / m

/-- Fuel-driven floor square root (kernel-reducible). -/
def isqrtAux (n : Nat) : Nat → Nat
  | 0 => 0
  | fuel + 1 =>
    let r := isqrtAux n fuel
    if (r + 1) * (r + 1) ≤ n then r + 1 else r

/-- Model of `int(math.sqrt(n))`: the floor square root. -/
def isqrt (n : Nat) : Nat := isqrtAux n n

/-- The padded flat index list of the square-approximation fallback:
`list(range(N)) + [N-1] * (W*H - N)`. -/
def paddedIdxs (N W H : Nat) : List Nat :=
  List.range N ++ List.replicate (W * H - N) (N - 1)

/-- The appending loops of the square-approximation fallback.  In the source
both the row-major and the column-major loop body append
`fnames[padded[k]]` for the running counter `k`, never using the loop
variables `x`, `y`; so each loop produces the list of `fnames[padded[k]]` for
`k` from `0` to its iteration count minus one. -/
def seqAppend (fnames : List String) (padded : List Nat) (count : Nat) : List String :=
  (List.range count).map (fun k => fnames.getD (padded.getD k 0) "")

/-- The `--order` flag. -/
inductive PyOrder | row | col
deriving DecidableEq, Repr

/-- Model of `build_grid_without_coords` in `stitch_full_mosaic.py`.  The
`.error` cases model `SystemExit` (empty listing) and `ZeroDivisionError`
(`math.ceil(N / 0)`). -/
def build_grid_without_coords (fnames : List String) (tiles_per_row : Option Nat)
    (order : PyOrder) : Except String (List String × Nat × Nat × Grid) :=
  let N := fnames.length
  if N = 0 then .error "No PNG files found in tiles_dir"
  else
    let W := match tiles_per_row with
      | some w => w
      | none => max 1 (isqrt N)
    if W = 0 then .error "ZeroDivisionError"
    else
      let H := ceilDiv N W
      let padded := paddedIdxs N W H
      let order_list := match order with
        | .row => seqAppend fnames padded (H * W)
        | .col => seqAppend fnames padded (W * H)
      let grid := fillRowsTrunc order_list 0 H W
      .ok (order_list, W, H, grid)

/-- Opaque image: the data the scripts inspect (size and pixel mode). -/
structure PImage where
  width : Nat
  height : Nat
  mode : String
deriving DecidableEq, Repr

/-- Observable result of `stitch_tiles`: canvas mode and size, and the list of
paste events `(fname, pixel_x, pixel_y)` in execution order. -/
structure StitchOut where
  canvasMode : String
  canvasW : Nat
  canvasH : Nat
  pastes : List (String × Nat × Nat)
deriving DecidableEq, Repr

/-- Grid-construction phase of `stitch_tiles`: list the directory, try
coordinate inference, fall back to `build_grid_without_coords`. -/
def stitchGrid (files : List String) (tiles_per_row : Option Nat) (order : PyOrder) :
    Except String (List String × Nat × Nat × Grid) :=
  let fnames := read_pngs_sorted files
  if fnames.isEmpty then .error "No PNG files found"
  else
    match reorder_with_coordinates fnames with
    | some res => Except.ok res
    | none => build_grid_without_coords fnames tiles_per_row order

/-- Model of `stitch_tiles`.  `disk` is the image codec: `none` models
`Image.open` raising.  The read of the first ordered tile (reference size and
mode) is outside any `try`, so its failure is a fatal `.error`; per-cell read
failures inside the loop only skip that cell's paste. -/
def stitch_tiles (disk : String → Option PImage) (files : List String)
    (tiles_per_row : Option Nat) (order : PyOrder) : Except String StitchOut :=
  match stitchGrid files tiles_per_row order with
  | .error e => .error e
  | .ok (ordered, W, H, grid) =>
      match ordered.head? with
      | none => .error "IndexError"
      | some first =>
        match disk first with
        | none => .error ("could not read first tile " ++ first)
        | some im0 =>
          let tw := im0.width
          let th := im0.height
          let pastes := (List.range H).flatMap (fun y =>
            (List.range W).filterMap (fun x =>
              match getCell grid x y with
              | none => none
              | some f =>
                match disk f with
                | none => none
                | some _ => some (f, x * tw, y * th)))
          .ok ⟨im0.mode, W * tw, H * th, pastes⟩

/-! ## Block aggregation (`build_z2_from_z1_tiles_no_real.py`) -/

/-- What was pasted into one channel's canvas at one member offset: the
channel's blank placeholder tile, or the tile read from disk under `fname`. -/
inductive TileVal
  | blank
  | fromDisk (fname : String)
deriving DecidableEq, Repr

/-- The four per-channel paste values of one S×S member: pseudo-real (`r`),
label map (`m`), instance map (`ins`), synthesized (`s`). -/
structure MemberRead where
  r : TileVal
  m : TileVal
  ins : TileVal
  s : TileVal
deriving DecidableEq, Repr

/-- All four channels blank (the `except` branch and the hole branch). -/
def allBlankMember : MemberRead := ⟨.blank, .blank, .blank, .blank⟩

/-- Model of the per-member `try` block of `build_z2_from_z1_tiles_no_real.py`
(lines 199–212): the map, instance and synthesized reads run in order inside
ONE `try`; under `--blank_real` the real tile is a fresh blank, otherwise the
pseudo-real read follows.  The first failing read raises, and the single
`except` replaces ALL four channel tiles with blanks. -/
def read_block_member (mapD insD synD prealD : String → Option PImage)
    (use_blank : Bool) (fname : String) : MemberRead :=
  match mapD fname with
  | none => allBlankMember
  | some _ =>
    match insD fname with
    | none => allBlankMember
    | some _ =>
      match synD fname with
      | none => allBlankMember
      | some _ =>
        if use_blank then ⟨.blank, .fromDisk fname, .fromDisk fname, .fromDisk fname⟩
        else
          match prealD fname with
          | none => allBlankMember
          | some _ => ⟨.fromDisk fname, .fromDisk fname, .fromDisk fname, .fromDisk fname⟩

/-- Member lookup of the block loop: `None if gx >= W or gy >= H else
name_grid[gy][gx]`. -/
def cellNameAt (grid : Grid) (W H gx gy : Nat) : Option String :=
  if W ≤ gx ∨ H ≤ gy then none else getCell grid gx gy

/-- Model of one block body (the `for j ... for i ...` member loop): the list
of `(i, j, MemberRead)` paste records of the S×S members of the block anchored
at `(bx, byc)`. -/
def processBlock (mapD insD synD prealD : String → Option PImage) (use_blank : Bool)
    (grid : Grid) (W H S bx byc : Nat) : List (Nat × Nat × MemberRead) :=
  (List.range S).flatMap (fun j => (List.range S).map (fun i =>
    match cellNameAt grid W H (bx + i) (byc + j) with
    | none => (i, j, allBlankMember)
    | some f => (i, j, read_block_member mapD insD synD prealD use_blank f)))

/-- Big-endian decimal digit characters of `n`, fuel-driven so that the kernel
can evaluate it. -/
def natDigitsAux : Nat → Nat → List Char
  | 0, _ => []
  | fuel + 1, n =>
    if n < 10 then [Nat.digitChar n]
    else natDigitsAux fuel (n / 10) ++ [Nat.digitChar (n % 10)]

/-- Decimal digit characters of `n`; `(natDigits n).length` models
`len(str(n))`. -/
def natDigits (n : Nat) : List Char := natDigitsAux (n + 1) n

/-- Model of the format spec `{n:0kd}`: pad the decimal digits of `n` with
leading zeros to width `k` (numbers with ≥ k digits are left unchanged). -/
def zeroPad (k n : Nat) : List Char :=
  List.replicate (k - (natDigits n).length) '0' ++ natDigits n

/-- First non-hole cell of the grid in row-major scan order (the `sample`
search loop of the padding computation). -/
def firstCellName (grid : Grid) : Option String :=
  (grid.map (fun row => row.filterMap id)).flatten.head?

/-- Pads read off the sample name: the lengths of its last two stem segments
when both are all-digit, else `(0, 0)`. -/
def padFromSample (sample : Option String) : Nat × Nat :=
  match sample with
  | none => (0, 0)
  | some sm =>
    let parts := List.splitOn '_' (pySplitextStem sm.data)
    if 2 ≤ parts.length ∧ pyIsDigit (parts.getD (parts.length - 2) []) = true
        ∧ pyIsDigit (parts.getD (parts.length - 1) []) = true then
      ((parts.getD (parts.length - 2) []).length, (parts.getD (parts.length - 1) []).length)
    else (0, 0)

/-- Model of the coord-mode padding computation of
`build_z2_from_z1_tiles_no_real.py` (lines 145–167): sample = first non-hole
grid cell; a zero pad falls back to `len(str(max(1, W//S)))` (resp. `H`);
`--coord_digits` overrides both axes. -/
def computePads (grid : Grid) (W H S : Nat) (coord_digits : Option Nat) : Nat × Nat :=
  let p := padFromSample (firstCellName grid)
  let px := if p.1 = 0 then (natDigits (max 1 (W / S))).length else p.1
  let py := if p.2 = 0 then (natDigits (max 1 (H / S))).length else p.2
  match coord_digits with
  | some d => (d, d)
  | none => (px, py)

/-- Python `range(0, stop, step)` for `1 ≤ step`. -/
def pyRangeStep (stop step : Nat) : List Nat :=
  (List.range (ceilDiv stop step)).map (· * step)

/-- The `--name_mode` flag. -/
inductive NameMode | seq | coord
deriving DecidableEq, Repr

/-- One output channel directory of the block scripts. -/
inductive Channel | real | map | ins | guidance
deriving DecidableEq, Repr

/-- The CLI arguments of `build_z2_from_z1_tiles_no_real.py` that the embedded
logic consumes. -/
structure BuildArgs where
  block : Nat
  tiles_per_row : Option Nat
  order : PyOrder
  name_mode : NameMode
  coord_digits : Option Nat
  blank_real : Bool
deriving Repr

/-- The `common` list of `ensure_sets`: sorted set intersection of the
required per-directory `.png` listings (the pseudo-real directory only when it
is supplied). -/
def commonList (mapL insL synL : List String) (prealL : Option (List String)) :
    List String :=
  let mp := read_pngs_sorted mapL
  let insS := read_pngs_sorted insL
  let syn := read_pngs_sorted synL
  match prealL with
  | some pl =>
    let preal := read_pngs_sorted pl
    sortStrings ((mp.filter (fun f => decide (f ∈ insS ∧ f ∈ syn ∧ f ∈ preal))).dedup)
  | none =>
    sortStrings ((mp.filter (fun f => decide (f ∈ insS ∧ f ∈ syn))).dedup)

/-- Model of `ensure_sets`: an empty intersection is the fatal `SystemExit`. -/
def ensure_sets (mapL insL synL : List String) (prealL : Option (List String)) :
    Except String (List String) :=
  let common := commonList mapL insL synL prealL
  if common.isEmpty then
    .error "No common filenames across required dirs. Check inputs."
  else .ok common

/-- The three-way grid construction of `main` (coordinate inference, explicit
`--tiles_per_row`, square approximation).  `.error "ZeroDivisionError"` models
`math.ceil(N / 0)` raising on a zero width. -/
def gridChoice (args : BuildArgs) (common : List String) :
    Except String (Nat × Nat × Grid) :=
  match reorder_with_coordinates common with
  | some (_, W, H, grid) => .ok (W, H, grid)
  | none =>
    let N := common.length
    match args.tiles_per_row with
    | some W =>
      if W = 0 then .error "ZeroDivisionError"
      else .ok (W, ceilDiv N W, fillRowsTrunc common 0 (ceilDiv N W) W)
    | none =>
      let W := max args.block (isqrt N)
      if W = 0 then .error "ZeroDivisionError"
      else
        let H := ceilDiv N W
        let padded := paddedIdxs N W H
        let order_list := match args.order with
          | .row => seqAppend common padded (H * W)
          | .col => seqAppend common padded (W * H)
        .ok (W, H, fillRowsTrunc order_list 0 H W)

/-- Output stem of one block: `f"{mx:0px d}_{my:0py d}.png"` in coord mode
(block-space coordinates `bx // S`, `by // S`), `f"{count:05d}.png"` in seq
mode. -/
def mkStem (mode : NameMode) (pads : Nat × Nat) (count S bx byc : Nat) : String :=
  match mode with
  | .coord =>
    String.mk (zeroPad pads.1 (bx / S) ++ '_' :: (zeroPad pads.2 (byc / S) ++ ".png".data))
  | .seq => String.mk (zeroPad 5 count ++ ".png".data)

/-- One file written by the block script: channel, name stem, and the member
paste records of the block it came from. -/
structure WriteEvent where
  channel : Channel
  stem : String
  content : List (Nat × Nat × MemberRead)
deriving DecidableEq, Repr

/-- Model of `main` of `build_z2_from_z1_tiles_no_real.py`: intersect the
listings, build the grid, compute pads, then walk blocks row-major
(`range(0, H, S)` outer, `range(0, W, S)` inner) writing the four channel
files of each block under one stem.  `.error` models a non-zero process exit;
`mapD`/`insD`/`synD`/`prealD` are the per-directory image codecs, `prealD =
none` models an omitted `--z1_pseudo_real_dir` (synthetic reused as
pseudo-real). -/
def mainNoReal (args : BuildArgs) (mapL insL synL : List String)
    (prealL : Option (List String)) (mapD insD synD : String → Option PImage)
    (prealD : Option (String → Option PImage)) : Except String (List WriteEvent) :=
  match ensure_sets mapL insL synL prealL with
  | .error e => .error e
  | .ok common =>
    match gridChoice args common with
    | .error e => .error e
    | .ok (W, H, grid) =>
      if args.block = 0 then .error "ValueError: range() arg 3 must not be zero"
      else
        let S := args.block
        let pads := computePads grid W H S args.coord_digits
        let pseudo := match prealD with
          | some d => d
          | none => synD
        let anchors := (pyRangeStep H S).flatMap (fun byc =>
          (pyRangeStep W S).map (fun bx => (bx, byc)))
        .ok (anchors.enum.flatMap (fun kb =>
          let content := processBlock mapD insD synD pseudo args.blank_real grid W H S
            kb.2.1 kb.2.2
          let stem := mkStem args.name_mode pads kb.1 S kb.2.1 kb.2.2
          [⟨.real, stem, content⟩, ⟨.map, stem, content⟩,
           ⟨.ins, stem, content⟩, ⟨.guidance, stem, content⟩]))

/-! ## Claim-side reference definitions and concrete fixtures -/

/-- Modelled from the claim wording of C3: the coordinate parser is said to
interpret the last two NON-EMPTY stem segments.  Used only to compare against
the source parser. -/
def claimParseLastNonEmpty (name : String) : Option (Nat × Nat) :=
  let segs := (List.splitOn '_' (pySplitextStem name.data)).filter (fun s => !s.isEmpty)
  if segs.length < 2 then none
  else
    let x_part := segs.getD (segs.length - 2) []
    let y_part := segs.getD (segs.length - 1) []
    if pyIsDigit x_part && pyIsDigit y_part then
      some (decimalVal x_part, decimalVal y_part)
    else none

/-- Modelled from the claim wording of C8: the output padding widths are said
to be the coordinate-segment lengths of the FIRST successfully-parsed input
name (in input list order).  Used only to compare against the source rule. -/
def claimPadsFromFirstParsed (common : List String) : Option (Nat × Nat) :=
  match common.find? (fun f => (parse_xy_from_name f).isSome) with
  | none => none
  | some f =>
    let parts := List.splitOn '_' (pySplitextStem f.data)
    some ((parts.getD (parts.length - 2) []).length, (parts.getD (parts.length - 1) []).length)

/-- Membership of one filename in every required channel listing (the
intersection `ensure_sets` takes). -/
def inAllRequired (mapL insL synL : List String) (prealL : Option (List String))
    (f : String) : Prop :=
  f ∈ read_pngs_sorted mapL ∧ f ∈ read_pngs_sorted insL ∧ f ∈ read_pngs_sorted synL ∧
    ∀ pl, prealL = some pl → f ∈ read_pngs_sorted pl

/-- Shape predicate for grids: `h` rows of width `w`. -/
def gridShape (g : Grid) (h w : Nat) : Prop :=
  g.length = h ∧ ∀ row ∈ g, row.length = w

/-- Fixture: every read succeeds with a 256×256 RGB image. -/
def diskAll256 : String → Option PImage := fun _ => some ⟨256, 256, "RGB"⟩

/-- Fixture: the 2×2 coordinate-named tile set of the spec's stitching
example. -/
def tiles2x2 : List String := ["0_0.png", "1_0.png", "0_1.png", "1_1.png"]

/-- Fixture for C2: `1_0.png` decodes at 100×100 while the lexicographically
first name `0_1.png` decodes at 256×256. -/
def diskTwoSizes : String → Option PImage := fun f =>
  if f = "1_0.png" then some ⟨100, 100, "RGB"⟩
  else if f = "0_1.png" then some ⟨256, 256, "RGB"⟩
  else none

/-- Fixture for C6: the read of `a_0_0.png` (the first ordered tile) raises,
every other read succeeds. -/
def diskFirstUnreadable : String → Option PImage := fun f =>
  if f = "a_0_0.png" then none else some ⟨256, 256, "RGB"⟩

/-- Fixture for C1: every map-channel read raises. -/
def diskNone : String → Option PImage := fun _ => none

/-- Fixture: the read of `a_0_1.png` (a non-reference tile) raises, every
other read succeeds. -/
def diskSecondUnreadable : String → Option PImage := fun f =>
  if f = "a_0_1.png" then none else some ⟨256, 256, "RGB"⟩

/-- Fixture: three coordinate-free names. -/
def names3 : List String := ["a.png", "b.png", "c.png"]

/-- Fixture: four coordinate-free names. -/
def names4 : List String := ["a.png", "b.png", "c.png", "d.png"]

-- Sanity checks of the embedding on concrete names.
example : parse_xy_from_name "tile_03_7.png" = some (3, 7) := by decide
example : parse_xy_from_name "tile.png" = none := by decide
example : parse_xy_from_name "0_1.png" = some (0, 1) := by decide
example : parse_xy_from_name "a_b.png" = none := by decide
example : pySplitextStem ".png".data = ".png".data := by decide
example : pySplitextStem "a.b.png".data = "a.b".data := by decide
example : stitch_tiles diskAll256 tiles2x2 none .row =
    .ok ⟨"RGB", 512, 512,
      [("0_0.png", 0, 0), ("1_0.png", 256, 0), ("0_1.png", 0, 256), ("1_1.png", 256, 256)]⟩ := by
  decide

/-! ## Helper lemmas -/

theorem sortStrings_sorted (l : List String) : (sortStrings l).Sorted strLe :=
  List.sorted_insertionSort strLe l

theorem mem_sortStrings {f : String} {l : List String} : f ∈ sortStrings l ↔ f ∈ l :=
  (List.perm_insertionSort strLe l).mem_iff

theorem isqrtAux_eq_min (n : Nat) : ∀ fuel, isqrtAux n fuel = min (Nat.sqrt n) fuel := by
  intro fuel
  induction fuel with
  | zero => simp [isqrtAux]
  | succ fuel ih =>
    simp only [isqrtAux, ih]
    rcases Nat.lt_or_ge fuel (Nat.sqrt n) with h | h
    · have hmin : min (Nat.sqrt n) fuel = fuel := by omega
      have hle : fuel + 1 ≤ Nat.sqrt n := h
      have : (fuel + 1) * (fuel + 1) ≤ n := Nat.le_sqrt.mp hle
      rw [hmin]
      simp [this]
      omega
    · have hmin : min (Nat.sqrt n) fuel = Nat.sqrt n := by omega
      have : ¬ (Nat.sqrt n + 1) * (Nat.sqrt n + 1) ≤ n := by
        intro hcon
        have := Nat.le_sqrt.mpr hcon
        omega
      rw [hmin]
      simp [this]
      omega

theorem isqrt_eq_sqrt (n : Nat) : isqrt n = Nat.sqrt n := by
  have h := isqrtAux_eq_min n n
  have := Nat.sqrt_le_self n
  simp [isqrt, h]
  omega

theorem pyIsDigit_iff (cs : List Char) :
    pyIsDigit cs = true ↔ cs ≠ [] ∧ ∀ c ∈ cs, c.isDigit = true := by
  simp [pyIsDigit, List.isEmpty_iff, List.all_eq_true]

theorem decimalVal_foldl (cs : List Char) : ∀ a : Nat,
    cs.foldl (fun a c => 10 * a + (c.toNat - 48)) a =
      a * 10 ^ cs.length + Nat.ofDigits 10 (cs.reverse.map (fun c => c.toNat - 48)) := by
  induction cs with
  | nil => intro a; simp [Nat.ofDigits]
  | cons c cs ih =>
    intro a
    simp only [List.foldl_cons, List.reverse_cons, List.map_append, List.map_cons,
      List.map_nil, Nat.ofDigits_append, List.length_cons, List.length_map,
      List.length_reverse, ih]
    simp [Nat.ofDigits]
    ring

theorem decimalVal_eq_ofDigits (cs : List Char) :
    decimalVal cs = Nat.ofDigits 10 (cs.reverse.map (fun c => c.toNat - 48)) := by
  simpa using decimalVal_foldl cs 0

/-- C3 (amended): the parser strips the extension, splits the stem on
underscores, and returns the decimal values of the LAST TWO SEGMENTS — empty
segments included, so each of the two must itself be non-empty and all-digit
(a trailing or doubled underscore therefore yields "no coordinate") — and for
every other shape it returns `none` rather than an error (it is a total
function into `Option`). -/
theorem c3_amended_theorem (name : String) :
    parse_xy_from_name name =
      (let parts := List.splitOn '_' (pySplitextStem name.data)
       let xp := parts.getD (parts.length - 2) []
       let yp := parts.getD (parts.length - 1) []
       if 2 ≤ parts.length ∧ xp ≠ [] ∧ yp ≠ [] ∧
           (∀ c ∈ xp, c.isDigit = true) ∧ (∀ c ∈ yp, c.isDigit = true) then
         some (Nat.ofDigits 10 (xp.reverse.map (fun c => c.toNat - 48)),
               Nat.ofDigits 10 (yp.reverse.map (fun c => c.toNat - 48)))
       else none) := by
  unfold parse_xy_from_name
  simp only [List.getD_eq_getElem?_getD]
  generalize List.splitOn '_' (pySplitextStem name.data) = parts
  rcases Nat.lt_or_ge parts.length 2 with hlen | hlen
  · rw [if_pos hlen, if_neg]
    rintro ⟨h2, -⟩
    omega
  · rw [if_neg (by omega)]
    by_cases hdx : pyIsDigit (parts[parts.length - 2]?.getD []) = true
    · by_cases hdy : pyIsDigit (parts[parts.length - 1]?.getD []) = true
      · obtain ⟨hxne, hxall⟩ := (pyIsDigit_iff _).mp hdx
        obtain ⟨hyne, hyall⟩ := (pyIsDigit_iff _).mp hdy
        rw [if_pos (by simp [hdx, hdy]), if_pos ⟨hlen, hxne, hyne, hxall, hyall⟩,
          decimalVal_eq_ofDigits, decimalVal_eq_ofDigits]
      · rw [if_neg (by simp [hdy]), if_neg]
        rintro ⟨-, -, hyne, -, hyall⟩
        exact hdy ((pyIsDigit_iff _).mpr ⟨hyne, hyall⟩)
    · rw [if_neg (by simp [hdx]), if_neg]
      rintro ⟨-, hxne, -, hxall, -⟩
      exact hdx ((pyIsDigit_iff _).mpr ⟨hxne, hxall⟩)

/-- C3 (counterexample): on `5_7_.png` the stem's last two segments are `7`
and the EMPTY segment after the trailing underscore, so the source parser
returns `none`, while the claim's "last two non-empty segments" rule would
return `(5, 7)`. -/
theorem c3_counterexample :
    parse_xy_from_name "5_7_.png" = none ∧
    claimParseLastNonEmpty "5_7_.png" = some (5, 7) := by decide

/-- C1 (amended): in block aggregation a member's four channels are NOT
independent — the map/instance/synthesized/pseudo-real reads run in one `try`,
so a failure of ANY required channel read substitutes the blank placeholder in
ALL four channels of that member.  Each member is an all-or-nothing unit:
either every channel is pasted from disk (the real channel being blank under
`--blank_real`), or every channel is blank; and the member entry of a block
depends only on that member's own grid cell, so other members of the block
are unaffected. -/
theorem c1_amended_theorem (mapD insD synD prealD : String → Option PImage)
    (use_blank : Bool) (f : String) (grid : Grid) (W H S bx byc i j : Nat)
    (hi : i < S) (hj : j < S) :
    (read_block_member mapD insD synD prealD use_blank f = allBlankMember ∨
      read_block_member mapD insD synD prealD use_blank f =
        ⟨if use_blank then .blank else .fromDisk f, .fromDisk f, .fromDisk f, .fromDisk f⟩) ∧
    (read_block_member mapD insD synD prealD use_blank f = allBlankMember ↔
      mapD f = none ∨ insD f = none ∨ synD f = none ∨
        (use_blank = false ∧ prealD f = none)) ∧
    ((match cellNameAt grid W H (bx + i) (byc + j) with
      | none => (i, j, allBlankMember)
      | some g => (i, j, read_block_member mapD insD synD prealD use_blank g)) ∈
      processBlock mapD insD synD prealD use_blank grid W H S bx byc) := by
  refine ⟨?_, ?_, ?_⟩
  · rcases hm : mapD f with _ | mv <;>
      rcases hin : insD f with _ | iv <;>
      rcases hs : synD f with _ | sv <;>
      rcases hr : prealD f with _ | rv <;>
      cases use_blank <;>
      simp [read_block_member, hm, hin, hs, hr, allBlankMember]
  · rcases hm : mapD f with _ | mv <;>
      rcases hin : insD f with _ | iv <;>
      rcases hs : synD f with _ | sv <;>
      rcases hr : prealD f with _ | rv <;>
      cases use_blank <;>
      simp [read_block_member, hm, hin, hs, hr, allBlankMember]
  · refine List.mem_flatMap.mpr ⟨j, List.mem_range.mpr hj, ?_⟩
    exact List.mem_map.mpr ⟨i, List.mem_range.mpr hi, rfl⟩

/-- C1 (witness): a 1×1 grid whose single member has a failing map read; the
block's (0,0) member entry is the all-blank record obtained through
`c1_amended_theorem`. -/
theorem c1_amended_witness :
    (0 : Nat) < 1 ∧
    ((0, 0, allBlankMember) ∈
      processBlock diskNone diskAll256 diskAll256 diskAll256 false
        [[some "t.png"]] 1 1 1 0 0) := by
  refine ⟨by decide, ?_⟩
  have h := (c1_amended_theorem diskNone diskAll256 diskAll256 diskAll256 false "t.png"
    [[some "t.png"]] 1 1 1 0 0 0 0 (by decide) (by decide)).2.2
  have e : (match cellNameAt [[some "t.png"]] 1 1 (0 + 0) (0 + 0) with
            | none => ((0 : Nat), (0 : Nat), allBlankMember)
            | some g => (0, 0, read_block_member diskNone diskAll256 diskAll256 diskAll256 false g)) =
      (0, 0, allBlankMember) := by decide
  rw [e] at h
  exact h

/-- C1 (counterexample): the map-channel read of `0_0.png` fails while the
instance-channel read succeeds, yet the source pastes the blank placeholder —
not the successfully read tile — into the instance channel as well, because
all four reads sit in one `try` block (`build_z2_from_z1_tiles_no_real.py`
lines 199–212; `build_z2_from_z1_tiles.py` lines 215–225 likewise). -/
theorem c1_counterexample :
    read_block_member diskNone diskAll256 diskAll256 diskAll256 false "0_0.png" =
      allBlankMember ∧
    diskAll256 "0_0.png" = some ⟨256, 256, "RGB"⟩ ∧
    allBlankMember.ins ≠ TileVal.fromDisk "0_0.png" := by decide

theorem stitch_tiles_ok (disk : String → Option PImage) (files : List String)
    (tpr : Option Nat) (order : PyOrder) (ordered : List String) (W H : Nat)
    (grid : Grid) (first : String) (im0 : PImage)
    (hg : stitchGrid files tpr order = .ok (ordered, W, H, grid))
    (hfirst : ordered.head? = some first)
    (hdisk : disk first = some im0) :
    stitch_tiles disk files tpr order = .ok
      ⟨im0.mode, W * im0.width, H * im0.height,
        (List.range H).flatMap (fun y => (List.range W).filterMap (fun x =>
          match getCell grid x y with
          | none => none
          | some f =>
            match disk f with
            | none => none
            | some _ => some (f, x * im0.width, y * im0.height)))⟩ := by
  unfold stitch_tiles
  rw [hg]
  simp only [hfirst, hdisk]

theorem stitch_pastes_mem (disk : String → Option PImage) (grid : Grid)
    (W H tw th : Nat) (f : String) (px py : Nat) :
    ((f, px, py) ∈ (List.range H).flatMap (fun y => (List.range W).filterMap (fun x =>
        match getCell grid x y with
        | none => none
        | some g =>
          match disk g with
          | none => none
          | some _ => some (g, x * tw, y * th)))) ↔
      ∃ x y, x < W ∧ y < H ∧ getCell grid x y = some f ∧ (disk f).isSome ∧
        px = x * tw ∧ py = y * th := by
  constructor
  · intro h
    rcases List.mem_flatMap.mp h with ⟨y, hy, hx⟩
    rcases List.mem_filterMap.mp hx with ⟨x, hxr, heq⟩
    rcases hcell : getCell grid x y with _ | g
    · simp [hcell] at heq
    · rcases hd : disk g with _ | im
      · simp [hcell, hd] at heq
      · simp only [hcell, hd] at heq
        have h1 : (g, x * tw, y * th) = (f, px, py) := by injection heq
        obtain ⟨hf, hpx, hpy⟩ : g = f ∧ x * tw = px ∧ y * th = py := by
          simpa using h1
        exact ⟨x, y, List.mem_range.mp hxr, List.mem_range.mp hy,
          hf ▸ hcell, by simp [hf ▸ hd], hpx.symm, hpy.symm⟩
  · rintro ⟨x, y, hx, hy, hcell, hdk, rfl, rfl⟩
    refine List.mem_flatMap.mpr ⟨y, List.mem_range.mpr hy, ?_⟩
    refine List.mem_filterMap.mpr ⟨x, List.mem_range.mpr hx, ?_⟩
    rcases hd : disk f with _ | im
    · rw [hd] at hdk; simp at hdk
    · simp [hcell, hd]

/-- C2 (amended): mosaic stitching takes the reference tile size and pixel
mode from the FIRST tile of the ordered list — the first non-hole grid cell in
row-major order under coordinate inference (the lexicographically first name
only in the fallback paths) — allocates a `(W·tile_w) × (H·tile_h)` canvas in
that mode, and pastes every non-hole cell `(x, y)` whose read succeeds with
its top-left pixel at `(x·tile_w, y·tile_h)`. -/
theorem c2_amended_theorem (disk : String → Option PImage) (files : List String)
    (tpr : Option Nat) (order : PyOrder) (ordered : List String) (W H : Nat)
    (grid : Grid) (first : String) (im0 : PImage)
    (hg : stitchGrid files tpr order = .ok (ordered, W, H, grid))
    (hfirst : ordered.head? = some first)
    (hdisk : disk first = some im0) :
    ∃ res, stitch_tiles disk files tpr order = .ok res ∧
      res.canvasMode = im0.mode ∧ res.canvasW = W * im0.width ∧
      res.canvasH = H * im0.height ∧
      ∀ f px py, ((f, px, py) ∈ res.pastes ↔
        ∃ x y, x < W ∧ y < H ∧ getCell grid x y = some f ∧ (disk f).isSome ∧
          px = x * im0.width ∧ py = y * im0.height) := by
  refine ⟨_, stitch_tiles_ok disk files tpr order ordered W H grid first im0 hg hfirst hdisk,
    rfl, rfl, rfl, ?_⟩
  intro f px py
  exact stitch_pastes_mem disk grid W H im0.width im0.height f px py

/-- C2 (witness): the spec's 2×2 example — four coordinate-named 256×256
tiles stitch to a 512×512 canvas with `1_1.png` pasted at `(256, 256)`. -/
theorem c2_amended_witness :
    ∃ res, stitch_tiles diskAll256 tiles2x2 none .row = .ok res ∧
      res.canvasW = 512 ∧ res.canvasH = 512 ∧ ("1_1.png", 256, 256) ∈ res.pastes := by
  obtain ⟨res, hok, hm, hw, hh, hmem⟩ :=
    c2_amended_theorem diskAll256 tiles2x2 none .row
      ["0_0.png", "1_0.png", "0_1.png", "1_1.png"] 2 2
      [[some "0_0.png", some "1_0.png"], [some "0_1.png", some "1_1.png"]]
      "0_0.png" ⟨256, 256, "RGB"⟩ (by decide) (by decide) (by decide)
  refine ⟨res, hok, by rw [hw]; decide, by rw [hh]; decide, ?_⟩
  exact (hmem "1_1.png" 256 256).mpr
    ⟨1, 1, by decide, by decide, by decide, by decide, by decide, by decide⟩

/-- C2 (counterexample): for the coordinate-named set `{0_1.png, 1_0.png}` the
ordered list starts with `1_0.png` (first non-hole cell in row-major order),
whose 100×100 size fixes a 200×200 canvas — not the 512×512 canvas that
decoding the lexicographically-first tile `0_1.png` (256×256) would give. -/
theorem c2_counterexample :
    (stitch_tiles diskTwoSizes ["0_1.png", "1_0.png"] none .row =
      .ok ⟨"RGB", 200, 200, [("1_0.png", 100, 0), ("0_1.png", 0, 100)]⟩) ∧
    (read_pngs_sorted ["0_1.png", "1_0.png"]).head? = some "0_1.png" ∧
    diskTwoSizes "0_1.png" = some ⟨256, 256, "RGB"⟩ ∧
    (2 * 256 : Nat) ≠ 200 := by decide

/-- C6 (amended): once the reference (first ordered) tile has been decoded,
the run is total: a failed read of any grid cell is only logged, that cell is
pasted nowhere (left as canvas background), and stitching completes — but the
reference tile's own decode happens before the `try`-protected loop, so its
failure aborts the run (see the counterexample). -/
theorem c6_amended_theorem (disk : String → Option PImage) (files : List String)
    (tpr : Option Nat) (order : PyOrder) (ordered : List String) (W H : Nat)
    (grid : Grid) (first : String) (im0 : PImage) (x y : Nat) (f : String)
    (hg : stitchGrid files tpr order = .ok (ordered, W, H, grid))
    (hfirst : ordered.head? = some first)
    (hdisk : disk first = some im0)
    (hx : x < W) (hy : y < H)
    (hcell : getCell grid x y = some f)
    (hfail : disk f = none) :
    ∃ res, stitch_tiles disk files tpr order = .ok res ∧
      ∀ px py, (f, px, py) ∉ res.pastes := by
  refine ⟨_, stitch_tiles_ok disk files tpr order ordered W H grid first im0 hg hfirst hdisk,
    ?_⟩
  intro px py hmem
  rcases (stitch_pastes_mem disk grid W H im0.width im0.height f px py).mp hmem with
    ⟨_, _, _, _, _, hsome, _, _⟩
  rw [hfail] at hsome
  simp at hsome

/-- C6 (witness): `a_0_1.png` is unreadable while the reference tile
`a_0_0.png` decodes; the run still returns a result and pastes nothing for the
failed cell. -/
theorem c6_amended_witness :
    ∃ res, stitch_tiles diskSecondUnreadable ["a_0_0.png", "a_0_1.png"] none .row =
      .ok res ∧ ∀ px py, ("a_0_1.png", px, py) ∉ res.pastes := by
  exact c6_amended_theorem diskSecondUnreadable ["a_0_0.png", "a_0_1.png"] none .row
    ["a_0_0.png", "a_0_1.png"] 1 2 [[some "a_0_0.png"], [some "a_0_1.png"]]
    "a_0_0.png" ⟨256, 256, "RGB"⟩ 0 1 "a_0_1.png"
    (by decide) (by decide) (by decide) (by decide) (by decide) (by decide) (by decide)

/-- C6 (counterexample): when the FIRST tile of the ordered set is unreadable
the run aborts with an uncaught exception instead of logging and continuing —
the reference-size read at `stitch_full_mosaic.py` lines 122–125 is outside
the `try`. -/
theorem c6_counterexample :
    diskFirstUnreadable "a_0_0.png" = none ∧
    diskFirstUnreadable "a_0_1.png" = some ⟨256, 256, "RGB"⟩ ∧
    stitch_tiles diskFirstUnreadable ["a_0_0.png", "a_0_1.png"] none .row =
      .error "could not read first tile a_0_0.png" := by decide

theorem fillRowCells_fst (names : List String) : ∀ (w k : Nat),
    (fillRowCells names k w).1 = (List.range w).map (fun i => names[k + i]?) := by
  intro w
  induction w with
  | zero => intro k; simp [fillRowCells]
  | succ w ih =>
    intro k
    rw [List.range_succ_eq_map]
    by_cases h : k < names.length
    · simp only [fillRowCells, dif_pos h, List.map_cons, List.map_map]
      refine congrArg₂ _ ?_ ?_
      · rw [List.getElem?_eq_getElem (by omega : k + 0 < names.length)]
        simp
      · rw [ih (k + 1)]
        apply List.map_congr_left
        intro i _
        simp only [Function.comp]
        congr 1
        omega
    · simp only [fillRowCells, dif_neg h, List.map_cons, List.map_map]
      refine congrArg₂ _ ?_ ?_
      · rw [List.getElem?_eq_none (by omega)]
      · rw [ih k]
        apply List.map_congr_left
        intro i _
        simp only [Function.comp]
        rw [List.getElem?_eq_none (by omega), List.getElem?_eq_none (by omega)]

theorem fillRowCells_snd (names : List String) : ∀ (w k : Nat), k ≤ names.length →
    (fillRowCells names k w).2 = min (k + w) names.length := by
  intro w
  induction w with
  | zero => intro k hk; simp [fillRowCells]; omega
  | succ w ih =>
    intro k hk
    by_cases h : k < names.length
    · simp only [fillRowCells, dif_pos h]
      rw [ih (k + 1) (by omega)]
      omega
    · simp only [fillRowCells, dif_neg h]
      rw [ih k hk]
      omega

theorem fillRowsTrunc_getCell (names : List String) : ∀ (hh k ww x y : Nat),
    k ≤ names.length → y < hh → x < ww →
    getCell (fillRowsTrunc names k hh ww) x y = names[k + y * ww + x]? := by
  intro hh
  induction hh with
  | zero => intro k ww x y _ hy _; omega
  | succ hh ih =>
    intro k ww x y hk hy hx
    cases y with
    | zero =>
      show ((fillRowsTrunc names k (hh + 1) ww).getD 0 []).getD x none = _
      simp only [fillRowsTrunc, List.getD_cons_zero]
      rw [fillRowCells_fst names ww k, List.getD_eq_getElem?_getD,
        List.getElem?_map, List.getElem?_range hx]
      simp
    | succ y =>
      show ((fillRowsTrunc names k (hh + 1) ww).getD (y + 1) []).getD x none = _
      simp only [fillRowsTrunc, List.getD_cons_succ]
      have hcnt : (fillRowCells names k ww).2 = min (k + ww) names.length :=
        fillRowCells_snd names ww k hk
      have ihres := ih (fillRowCells names k ww).2 ww x y
        (by rw [hcnt]; omega) (by omega) hx
      show getCell (fillRowsTrunc names (fillRowCells names k ww).2 hh ww) x y = _
      rw [ihres, hcnt]
      rcases Nat.le_total (k + ww) names.length with hle | hle
      · rw [Nat.min_eq_left hle]
        congr 1
        ring
      · rw [Nat.min_eq_right hle]
        rw [List.getElem?_eq_none (by omega), List.getElem?_eq_none (by
          have : ww ≤ (y + 1) * ww := Nat.le_mul_of_pos_left ww (by omega)
          omega)]

theorem reorder_eq_none_of_noparse (names : List String)
    (h : ∀ f ∈ names, parse_xy_from_name f = none) :
    reorder_with_coordinates names = none := by
  unfold reorder_with_coordinates coordTriples
  have he : names.filterMap (fun f => (parse_xy_from_name f).map (fun xy => (xy.1, xy.2, f))) = [] := by
    rw [List.filterMap_eq_nil_iff]
    intro f hf
    rw [h f hf]
    rfl
  simp [he]

theorem paddedIdxs_getD (N W H i : Nat) (hi : i < W * H) (hN : 0 < N) :
    (paddedIdxs N W H).getD i 0 = if i < N then i else N - 1 := by
  unfold paddedIdxs
  rw [List.getD_eq_getElem?_getD, List.getElem?_append]
  rcases Nat.lt_or_ge i N with h | h
  · rw [if_pos (by simpa using h), List.getElem?_range h, if_pos h]
    rfl
  · rw [if_neg (by simpa using h), List.length_range, List.getElem?_replicate,
      if_pos (by omega), if_neg (by omega)]
    rfl

theorem seqAppend_getElem? (names : List String) (padded : List Nat)
    (count i : Nat) (hi : i < count) :
    (seqAppend names padded count)[i]? = some (names.getD (padded.getD i 0) "") := by
  unfold seqAppend
  rw [List.getElem?_map, List.getElem?_range hi]
  rfl

/-- C4 (amended): with explicit `--tiles_per_row` and no parsing name, BOTH
scripts use width = tiles_per_row and height = ceil(N / width), but they fill
differently: `build_z2_from_z1_tiles_no_real.py` assigns names row-major
truncating at the tile count, leaving every trailing cell a hole, while
`stitch_full_mosaic.py`'s `build_grid_without_coords` pads the flat list by
repeating the LAST name, so its trailing cells repeat that name and the grid
has no holes. -/
theorem c4_amended_theorem (names : List String) (W S : Nat) (ord : PyOrder)
    (nm : NameMode) (cd : Option Nat) (br : Bool)
    (hW : 0 < W)
    (hnoparse : ∀ f ∈ names, parse_xy_from_name f = none) :
    (gridChoice ⟨S, some W, ord, nm, cd, br⟩ names =
      .ok (W, ceilDiv names.length W,
        fillRowsTrunc names 0 (ceilDiv names.length W) W) ∧
      ∀ x y, x < W → y < ceilDiv names.length W →
        getCell (fillRowsTrunc names 0 (ceilDiv names.length W) W) x y =
          names[y * W + x]?) ∧
    (names ≠ [] → ∃ ol g,
      build_grid_without_coords names (some W) ord =
        .ok (ol, W, ceilDiv names.length W, g) ∧
      ∀ x y, x < W → y < ceilDiv names.length W →
        getCell g x y = some (names.getD
          (if y * W + x < names.length then y * W + x else names.length - 1) "")) := by
  constructor
  · constructor
    · unfold gridChoice
      rw [reorder_eq_none_of_noparse names hnoparse]
      simp only
      rw [if_neg (by omega)]
    · intro x y hx hy
      rw [fillRowsTrunc_getCell names (ceilDiv names.length W) 0 W x y
        (Nat.zero_le _) hy hx]
      congr 1
      omega
  · intro hne
    have hN : 0 < names.length := List.length_pos.mpr hne
    have hcomm : W * ceilDiv names.length W = ceilDiv names.length W * W :=
      Nat.mul_comm _ _
    have hWH : ∀ x y, x < W → y < ceilDiv names.length W →
        y * W + x < W * ceilDiv names.length W := by
      intro x y hx hy
      have h1 : (y + 1) * W ≤ ceilDiv names.length W * W :=
        Nat.mul_le_mul_right W (by omega)
      have h2 : (y + 1) * W = y * W + W := by ring
      omega
    simp only [build_grid_without_coords]
    rw [if_neg (by omega), if_neg (by omega)]
    refine ⟨_, _, rfl, ?_⟩
    intro x y hx hy
    have hlt := hWH x y hx hy
    rw [fillRowsTrunc_getCell _ (ceilDiv names.length W) 0 W x y (Nat.zero_le _) hy hx,
      Nat.zero_add]
    cases ord
    · rw [seqAppend_getElem? _ _ _ _ (by omega : y * W + x < ceilDiv names.length W * W),
        paddedIdxs_getD names.length W (ceilDiv names.length W) (y * W + x) hlt hN]
    · rw [seqAppend_getElem? _ _ _ _ (by omega : y * W + x < W * ceilDiv names.length W),
        paddedIdxs_getD names.length W (ceilDiv names.length W) (y * W + x) hlt hN]

/-- C4 (witness): three non-parsing names with tiles-per-row 2: the block
script's grid truncates (cell (1,1) is `names3[3]? = none`, a hole), obtained
by applying `c4_amended_theorem`. -/
theorem c4_amended_witness :
    (gridChoice ⟨3, some 2, PyOrder.row, NameMode.coord, none, false⟩ names3 =
      .ok (2, ceilDiv names3.length 2, fillRowsTrunc names3 0 (ceilDiv names3.length 2) 2) ∧
     getCell (fillRowsTrunc names3 0 (ceilDiv names3.length 2) 2) 1 1 = names3[1 * 2 + 1]?) ∧
    names3[1 * 2 + 1]? = none := by
  have h := c4_amended_theorem names3 2 3 PyOrder.row NameMode.coord none false
    (by decide) (by decide)
  exact ⟨⟨h.1.1, h.1.2 1 1 (by decide) (by decide)⟩, by decide⟩

/-- C4 (counterexample): on the same inputs the stitcher's explicit-width grid
REPEATS the last name into the trailing cell instead of leaving a hole:
`build_grid_without_coords(["a.png","b.png","c.png"], tiles_per_row=2)` puts
`c.png` at both (0,1) and (1,1). -/
theorem c4_counterexample :
    build_grid_without_coords names3 (some 2) PyOrder.row =
      .ok (["a.png", "b.png", "c.png", "c.png"], 2, 2,
        [[some "a.png", some "b.png"], [some "c.png", some "c.png"]]) ∧
    getCell [[some "a.png", some "b.png"], [some "c.png", some "c.png"]] 1 1 =
      some "c.png" ∧
    (∀ f ∈ names3, parse_xy_from_name f = none) ∧
    some "c.png" ≠ (none : Option String) := by decide

theorem squareGrid_getCell (names : List String) (W : Nat) (hW : 0 < W)
    (hN : 0 < names.length) (count : Nat)
    (hcount : count = ceilDiv names.length W * W ∨ count = W * ceilDiv names.length W) :
    ∀ x y, x < W → y < ceilDiv names.length W →
      getCell (fillRowsTrunc
        (seqAppend names (paddedIdxs names.length W (ceilDiv names.length W)) count)
        0 (ceilDiv names.length W) W) x y =
      some (names.getD
        (if y * W + x < names.length then y * W + x else names.length - 1) "") := by
  intro x y hx hy
  have hcomm : W * ceilDiv names.length W = ceilDiv names.length W * W :=
    Nat.mul_comm _ _
  have hWH : y * W + x < W * ceilDiv names.length W := by
    have h1 : (y + 1) * W ≤ ceilDiv names.length W * W :=
      Nat.mul_le_mul_right W (by omega)
    have h2 : (y + 1) * W = y * W + W := by ring
    omega
  rw [fillRowsTrunc_getCell _ (ceilDiv names.length W) 0 W x y (Nat.zero_le _) hy hx,
    Nat.zero_add]
  have hclt : y * W + x < count := by rcases hcount with rfl | rfl <;> omega
  rw [seqAppend_getElem? _ _ _ _ hclt,
    paddedIdxs_getD names.length W (ceilDiv names.length W) (y * W + x) (by omega) hN]

/-- C7 (amended): in the square-approximation fallback (no name parses, no
tiles-per-row) the block script uses width = max(block-factor, floor(sqrt N))
while the MOSAIC STITCHER uses width = max(1, floor(sqrt N)) — NOT the same
rule; in both, height = ceil(N / width), the flat list is padded by repeating
the index of the last name, and — because the column-major loop body also
reads `fnames[padded[k]]` for the same running counter `k` — the resulting
grid is laid out row-major REGARDLESS of the order flag. -/
theorem c7_amended_theorem (names : List String) (S : Nat) (nm : NameMode)
    (cd : Option Nat) (br : Bool) (ord : PyOrder)
    (hS : 0 < S) (hne : names ≠ [])
    (hnoparse : ∀ f ∈ names, parse_xy_from_name f = none) :
    (∃ g, gridChoice ⟨S, none, ord, nm, cd, br⟩ names =
        .ok (max S (Nat.sqrt names.length),
          ceilDiv names.length (max S (Nat.sqrt names.length)), g) ∧
      ∀ x y, x < max S (Nat.sqrt names.length) →
        y < ceilDiv names.length (max S (Nat.sqrt names.length)) →
        getCell g x y = some (names.getD
          (if y * max S (Nat.sqrt names.length) + x < names.length then
            y * max S (Nat.sqrt names.length) + x else names.length - 1) "")) ∧
    gridChoice ⟨S, none, PyOrder.col, nm, cd, br⟩ names =
      gridChoice ⟨S, none, PyOrder.row, nm, cd, br⟩ names ∧
    (∃ ol g, build_grid_without_coords names none ord =
        .ok (ol, max 1 (Nat.sqrt names.length),
          ceilDiv names.length (max 1 (Nat.sqrt names.length)), g) ∧
      ∀ x y, x < max 1 (Nat.sqrt names.length) →
        y < ceilDiv names.length (max 1 (Nat.sqrt names.length)) →
        getCell g x y = some (names.getD
          (if y * max 1 (Nat.sqrt names.length) + x < names.length then
            y * max 1 (Nat.sqrt names.length) + x else names.length - 1) "")) ∧
    build_grid_without_coords names none PyOrder.col =
      build_grid_without_coords names none PyOrder.row := by
  have hN : 0 < names.length := List.length_pos.mpr hne
  have hsq := isqrt_eq_sqrt names.length
  have hWb : 0 < max S (Nat.sqrt names.length) := lt_of_lt_of_le hS (le_max_left _ _)
  have hWs : (0 : Nat) < max 1 (Nat.sqrt names.length) := lt_of_lt_of_le one_pos (le_max_left _ _)
  refine ⟨?_, ?_, ?_, ?_⟩
  · simp only [gridChoice, reorder_eq_none_of_noparse names hnoparse, hsq]
    rw [if_neg (by omega)]
    cases ord
    · exact ⟨_, rfl, squareGrid_getCell names _ hWb hN _ (Or.inl rfl)⟩
    · exact ⟨_, rfl, squareGrid_getCell names _ hWb hN _ (Or.inr rfl)⟩
  · simp only [gridChoice, reorder_eq_none_of_noparse names hnoparse, hsq]
    rw [Nat.mul_comm (max S (Nat.sqrt names.length))
      (ceilDiv names.length (max S (Nat.sqrt names.length)))]
  · simp only [build_grid_without_coords, hsq]
    rw [if_neg (by omega), if_neg (by omega)]
    cases ord
    · exact ⟨_, _, rfl, squareGrid_getCell names _ hWs hN _ (Or.inl rfl)⟩
    · exact ⟨_, _, rfl, squareGrid_getCell names _ hWs hN _ (Or.inr rfl)⟩
  · simp only [build_grid_without_coords, hsq]
    rw [Nat.mul_comm (max 1 (Nat.sqrt names.length))
      (ceilDiv names.length (max 1 (Nat.sqrt names.length)))]

/-- C7 (witness): four non-parsing names with S = 3: the block script's grid
is 3 wide and its cell (2,1) (flat index 5 ≥ 4) repeats the last name; the
order flag does not change the result. -/
theorem c7_amended_witness :
    (∃ g, gridChoice ⟨3, none, PyOrder.row, NameMode.coord, none, false⟩ names4 =
        .ok (max 3 (Nat.sqrt names4.length),
          ceilDiv names4.length (max 3 (Nat.sqrt names4.length)), g) ∧
      getCell g 2 1 = some (names4.getD
        (if 1 * max 3 (Nat.sqrt names4.length) + 2 < names4.length then
          1 * max 3 (Nat.sqrt names4.length) + 2 else names4.length - 1) "")) ∧
    gridChoice ⟨3, none, PyOrder.col, NameMode.coord, none, false⟩ names4 =
      gridChoice ⟨3, none, PyOrder.row, NameMode.coord, none, false⟩ names4 := by
  have h := c7_amended_theorem names4 3 NameMode.coord none false PyOrder.row
    (by decide) (by decide) (by decide)
  obtain ⟨g, hok, hcells⟩ := h.1
  refine ⟨⟨g, hok, hcells 2 1 ?_ ?_⟩, h.2.1⟩
  · rw [← isqrt_eq_sqrt]; decide
  · rw [← isqrt_eq_sqrt]; decide

/-- C7 (counterexample): for four tiles and block factor 3 the block script's
square-approximation width is max(3, ⌊√4⌋) = 3 but the mosaic stitcher's is
max(1, ⌊√4⌋) = 2 — the stitcher does NOT build its fallback grid by the same
rule. -/
theorem c7_counterexample :
    gridChoice ⟨3, none, PyOrder.row, NameMode.coord, none, false⟩ names4 =
      .ok (3, 2, [[some "a.png", some "b.png", some "c.png"],
                  [some "d.png", some "d.png", some "d.png"]]) ∧
    build_grid_without_coords names4 none PyOrder.row =
      .ok (["a.png", "b.png", "c.png", "d.png"], 2, 2,
        [[some "a.png", some "b.png"], [some "c.png", some "d.png"]]) ∧
    (3 : Nat) ≠ 2 := by decide

theorem strLe_refl (f : String) : strLe f f := by
  show listLe f.data f.data = true
  induction f.data with
  | nil => rfl
  | cons c cs ih => simp [listLe, ih]

theorem getCell_emptyGrid (w h x y : Nat) : getCell (emptyGrid w h) x y = none := by
  unfold getCell emptyGrid
  simp only [List.getD_eq_getElem?_getD]
  rw [List.getElem?_replicate]
  by_cases hy : y < h
  · rw [if_pos hy]
    show (List.replicate w (none : Option String))[x]?.getD none = none
    rw [List.getElem?_replicate]
    split <;> rfl
  · rw [if_neg hy]
    rfl

theorem getCell_setCell_self (g : Grid) (x y : Nat) (f : String)
    (hy : y < g.length) (hx : x < (g.getD y []).length) :
    getCell (setCell g x y f) x y = some f := by
  unfold getCell setCell
  simp only [List.getD_eq_getElem?_getD] at hx ⊢
  rw [List.getElem?_set_self hy]
  show ((g[y]?.getD []).set x (some f))[x]?.getD none = some f
  rw [List.getElem?_set_self hx]
  rfl

theorem getCell_setCell_ne (g : Grid) (x y x' y' : Nat) (f : String)
    (hne : x ≠ x' ∨ y ≠ y') :
    getCell (setCell g x y f) x' y' = getCell g x' y' := by
  unfold getCell setCell
  simp only [List.getD_eq_getElem?_getD]
  by_cases hy : y = y'
  case neg =>
    rw [List.getElem?_set_ne hy]
  case pos =>
    subst hy
    have hx : x ≠ x' := by tauto
    rcases Nat.lt_or_ge y g.length with hlt | hge
    · rw [List.getElem?_set_self hlt]
      show ((g[y]?.getD []).set x (some f))[x']?.getD none = (g[y]?.getD [])[x']?.getD none
      rw [List.getElem?_set_ne hx]
    · rw [List.getElem?_set, if_pos rfl, if_neg (by omega),
        List.getElem?_eq_none (by omega : g.length ≤ y)]

theorem placeCoord_shape (h w : Nat) (g : Grid) (c : Nat × Nat × String)
    (hlen : g.length = h) (hrow : ∀ row ∈ g, row.length = w) :
    (placeCoord h w g c).length = h ∧ ∀ row ∈ placeCoord h w g c, row.length = w := by
  unfold placeCoord
  split
  · constructor
    · simp [setCell, hlen]
    · intro row hr
      rcases List.mem_or_eq_of_mem_set hr with hmem | heq
      · exact hrow _ hmem
      · subst heq
        rw [List.length_set]
        have hy : c.2.1 < g.length := by omega
        rw [List.getD_eq_getElem (g) [] hy]
        exact hrow _ (List.getElem_mem hy)
  · exact ⟨hlen, hrow⟩

theorem getCell_foldl_place (h w : Nat) (coords : List (Nat × Nat × String)) :
    ∀ (g : Grid), g.length = h → (∀ row ∈ g, row.length = w) →
    ∀ x y, x < w → y < h →
    getCell (coords.foldl (placeCoord h w) g) x y =
      (match coords.reverse.find? (fun c => c.1 == x && c.2.1 == y) with
       | some c => some c.2.2
       | none => getCell g x y) := by
  induction coords with
  | nil => intro g _ _ x y _ _; rfl
  | cons c cs ih =>
    intro g hlen hrow x y hx hy
    rw [List.foldl_cons]
    obtain ⟨hlen', hrow'⟩ := placeCoord_shape h w g c hlen hrow
    rw [ih (placeCoord h w g c) hlen' hrow' x y hx hy]
    rw [List.reverse_cons, List.find?_append]
    cases hfind : cs.reverse.find? (fun c' => c'.1 == x && c'.2.1 == y) with
    | some c' => rfl
    | none =>
      rw [Option.none_or]
      by_cases hpc : (c.1 == x && c.2.1 == y) = true
      · have hand := (Bool.and_eq_true _ _).mp hpc
        have hcx : c.1 = x := by simpa using hand.1
        have hcy : c.2.1 = y := by simpa using hand.2
        rw [show List.find? (fun c' => c'.1 == x && c'.2.1 == y) [c] = some c by
          rw [List.find?_cons, hpc]]
        show getCell (placeCoord h w g c) x y = some c.2.2
        unfold placeCoord
        rw [if_pos ⟨by omega, by omega⟩, hcx, hcy]
        refine getCell_setCell_self g x y c.2.2 (by omega) ?_
        rw [List.getD_eq_getElem (g) [] (by omega)]
        rw [hrow _ (List.getElem_mem (by omega))]
        omega
      · rw [show List.find? (fun c' => c'.1 == x && c'.2.1 == y) [c] = none by
          rw [List.find?_cons]
          simp only [hpc]
          rfl]
        show getCell (placeCoord h w g c) x y = getCell g x y
        unfold placeCoord
        split
        · apply getCell_setCell_ne
          rcases Bool.and_eq_false_iff.mp (Bool.eq_false_iff.mpr hpc) with hfx | hfy
          · left
            intro heq
            rw [heq] at hfx
            simp at hfx
          · right
            intro heq
            rw [heq] at hfy
            simp at hfy
        · rfl

theorem getLast?_cons_or {α : Type} (a : α) (t : List α) :
    (a :: t).getLast? = t.getLast?.or (some a) := by
  induction t generalizing a with
  | nil => rfl
  | cons b t ih =>
    rw [List.getLast?_cons_cons, ih b]
    cases t.getLast? <;> rfl

theorem find?_reverse_eq_getLast?_filter {α : Type} (p : α → Bool) (l : List α) :
    l.reverse.find? p = (l.filter p).getLast? := by
  induction l with
  | nil => rfl
  | cons a l ih =>
    rw [List.reverse_cons, List.find?_append, ih, List.filter_cons]
    by_cases hp : p a = true
    · rw [if_pos hp, getLast?_cons_or, show List.find? p [a] = some a by
        rw [List.find?_cons, hp]]
    · rw [if_neg hp, show List.find? p [a] = none by
        rw [List.find?_cons]
        simp only [hp]
        rfl]
      rw [Option.or_none]

theorem mem_of_getLast?_eq {α : Type} {l : List α} {b : α}
    (hb : l.getLast? = some b) : b ∈ l := by
  obtain ⟨h, heq⟩ := List.mem_getLast?_eq_getLast (show b ∈ l.getLast? by rw [hb]; rfl)
  rw [heq]
  exact List.getLast_mem h

theorem getLast?_pairwise_ub {α : Type} {R : α → α → Prop} :
    ∀ (l : List α), l.Pairwise R → ∀ b, l.getLast? = some b →
      ∀ a ∈ l, a = b ∨ R a b := by
  intro l
  induction l with
  | nil => intro _ b hb; simp at hb
  | cons c t ih =>
    intro hp b hb a ha
    cases t with
    | nil =>
      have hcb : c = b := by simpa using hb
      have hac : a = c := by simpa using ha
      left
      rw [hac, hcb]
    | cons d t' =>
      rw [List.getLast?_cons_cons] at hb
      rcases List.mem_cons.mp ha with rfl | ha'
      · right
        exact (List.pairwise_cons.mp hp).1 b (mem_of_getLast?_eq hb)
      · exact ih (List.pairwise_cons.mp hp).2 b hb a ha'

theorem mem_coordTriples {l : List String} {c : Nat × Nat × String} :
    c ∈ coordTriples l ↔ c.2.2 ∈ l ∧ parse_xy_from_name c.2.2 = some (c.1, c.2.1) := by
  unfold coordTriples
  constructor
  · intro h
    rcases List.mem_filterMap.mp h with ⟨f, hf, heq⟩
    rcases hp : parse_xy_from_name f with _ | xy
    · rw [hp] at heq
      cases heq
    · rw [hp] at heq
      have : (xy.1, xy.2, f) = c := by simpa using heq
      subst this
      exact ⟨hf, by rw [hp]⟩
  · rintro ⟨hf, hp⟩
    refine List.mem_filterMap.mpr ⟨c.2.2, hf, ?_⟩
    rw [hp]
    rfl

theorem pairwise_coordTriples (l : List String) (hs : l.Pairwise strLe) :
    (coordTriples l).Pairwise (fun a b => strLe a.2.2 b.2.2) := by
  unfold coordTriples
  rw [List.pairwise_filterMap]
  refine hs.imp_of_mem ?_
  intro a b ha hb hab
  intro u hu v hv
  rcases hp : parse_xy_from_name a with _ | xy <;> rw [hp] at hu
  · cases hu
  · rcases hq : parse_xy_from_name b with _ | xy' <;> rw [hq] at hv
    · cases hv
    · have hu' : u = (xy.1, xy.2, a) := by simpa using hu.symm
      have hv' : v = (xy'.1, xy'.2, b) := by simpa using hv.symm
      rw [hu', hv']
      exact hab

theorem le_foldl_max (l : List Nat) : ∀ a, a ≤ l.foldl max a := by
  induction l with
  | nil => intro a; simp
  | cons b t ih =>
    intro a
    rw [List.foldl_cons]
    exact le_trans (Nat.le_max_left a b) (ih (max a b))

theorem foldl_max_le (l : List Nat) : ∀ a x, x ∈ l → x ≤ l.foldl max a := by
  induction l with
  | nil => intro a x hx; cases hx
  | cons b t ih =>
    intro a x hx
    rw [List.foldl_cons]
    rcases List.mem_cons.mp hx with rfl | hx'
    · exact le_trans (Nat.le_max_right a x) (le_foldl_max t (max a x))
    · exact ih (max a b) x hx'

theorem foldl_max_mem (l : List Nat) : ∀ a, l.foldl max a ∈ l ∨ l.foldl max a = a := by
  induction l with
  | nil => intro a; right; rfl
  | cons b t ih =>
    intro a
    rw [List.foldl_cons]
    rcases ih (max a b) with h | h
    · left
      exact List.mem_cons_of_mem _ h
    · rcases Nat.le_total a b with hab | hab
      · left
        rw [h, Nat.max_eq_right hab]
        exact List.mem_cons_self _ _
      · right
        rw [h, Nat.max_eq_left hab]

theorem getLast?_eq_none_iff_nil {α : Type} (l : List α) :
    l.getLast? = none ↔ l = [] := by
  cases l with
  | nil => simp
  | cons a t =>
    rw [getLast?_cons_or]
    cases t.getLast? <;> simp

/-- C5: for every lexicographically sorted input list in which at least one
name parses, coordinate inference builds a grid of width (max parsed x) + 1
and height (max parsed y) + 1; each cell (x, y) is a hole exactly when no
input name parses to (x, y), and otherwise holds a name that parses to
(x, y), belongs to the input, and is lexicographically ≥ every input name
parsing to (x, y) — i.e. the later duplicate silently overwrites the
earlier. -/
theorem c5_theorem (fnames : List String)
    (hs : fnames.Pairwise strLe)
    (hex : ∃ f ∈ fnames, (parse_xy_from_name f).isSome = true) :
    ∃ ordered grid mx my,
      reorder_with_coordinates fnames = some (ordered, mx + 1, my + 1, grid) ∧
      (∃ f ∈ fnames, ∃ yy, parse_xy_from_name f = some (mx, yy)) ∧
      (∃ f ∈ fnames, ∃ xx, parse_xy_from_name f = some (xx, my)) ∧
      (∀ f ∈ fnames, ∀ x y, parse_xy_from_name f = some (x, y) → x ≤ mx ∧ y ≤ my) ∧
      (∀ x y, x ≤ mx → y ≤ my →
        ((getCell grid x y = none ↔ ∀ f ∈ fnames, parse_xy_from_name f ≠ some (x, y)) ∧
         (∀ f, getCell grid x y = some f →
            f ∈ fnames ∧ parse_xy_from_name f = some (x, y) ∧
            ∀ f' ∈ fnames, parse_xy_from_name f' = some (x, y) → strLe f' f))) := by
  obtain ⟨f0, hf0, hp0⟩ := hex
  rcases hp0some : parse_xy_from_name f0 with _ | xy0
  · rw [hp0some] at hp0
    simp at hp0
  have hc0 : (xy0.1, xy0.2, f0) ∈ coordTriples fnames :=
    mem_coordTriples.mpr ⟨hf0, by rw [hp0some]⟩
  have hcne : coordTriples fnames ≠ [] := by
    intro h
    rw [h] at hc0
    cases hc0
  have hcempty : ¬ (coordTriples fnames).isEmpty = true := by
    simpa [List.isEmpty_iff] using hcne
  refine ⟨(((coordTriples fnames).foldl
      (placeCoord (((coordTriples fnames).map (fun c => c.2.1)).foldl max 0 + 1)
        (((coordTriples fnames).map (fun c => c.1)).foldl max 0 + 1))
      (emptyGrid (((coordTriples fnames).map (fun c => c.1)).foldl max 0 + 1)
        (((coordTriples fnames).map (fun c => c.2.1)).foldl max 0 + 1))).map
      (fun row => row.filterMap id)).flatten,
    (coordTriples fnames).foldl
      (placeCoord (((coordTriples fnames).map (fun c => c.2.1)).foldl max 0 + 1)
        (((coordTriples fnames).map (fun c => c.1)).foldl max 0 + 1))
      (emptyGrid (((coordTriples fnames).map (fun c => c.1)).foldl max 0 + 1)
        (((coordTriples fnames).map (fun c => c.2.1)).foldl max 0 + 1)),
    ((coordTriples fnames).map (fun c => c.1)).foldl max 0,
    ((coordTriples fnames).map (fun c => c.2.1)).foldl max 0, ?_, ?_, ?_, ?_, ?_⟩
  · unfold reorder_with_coordinates
    rw [if_neg hcempty]
  · rcases foldl_max_mem ((coordTriples fnames).map (fun c => c.1)) 0 with hmem | hzero
    · rcases List.mem_map.mp hmem with ⟨c, hc, hceq⟩
      obtain ⟨hcf, hcp⟩ := mem_coordTriples.mp hc
      exact ⟨c.2.2, hcf, c.2.1, by rw [hcp, hceq]⟩
    · refine ⟨f0, hf0, xy0.2, ?_⟩
      have hle : xy0.1 ≤ ((coordTriples fnames).map (fun c => c.1)).foldl max 0 :=
        foldl_max_le _ 0 xy0.1 (List.mem_map.mpr ⟨(xy0.1, xy0.2, f0), hc0, rfl⟩)
      have : xy0.1 = ((coordTriples fnames).map (fun c => c.1)).foldl max 0 := by omega
      rw [hp0some, ← this]
  · rcases foldl_max_mem ((coordTriples fnames).map (fun c => c.2.1)) 0 with hmem | hzero
    · rcases List.mem_map.mp hmem with ⟨c, hc, hceq⟩
      obtain ⟨hcf, hcp⟩ := mem_coordTriples.mp hc
      exact ⟨c.2.2, hcf, c.1, by rw [hcp, hceq]⟩
    · refine ⟨f0, hf0, xy0.1, ?_⟩
      have hle : xy0.2 ≤ ((coordTriples fnames).map (fun c => c.2.1)).foldl max 0 :=
        foldl_max_le _ 0 xy0.2 (List.mem_map.mpr ⟨(xy0.1, xy0.2, f0), hc0, rfl⟩)
      have : xy0.2 = ((coordTriples fnames).map (fun c => c.2.1)).foldl max 0 := by omega
      rw [hp0some, ← this]
  · intro f hf x y hp
    have hmem : (x, y, f) ∈ coordTriples fnames := mem_coordTriples.mpr ⟨hf, hp⟩
    constructor
    · exact foldl_max_le _ 0 x (List.mem_map.mpr ⟨(x, y, f), hmem, rfl⟩)
    · exact foldl_max_le _ 0 y (List.mem_map.mpr ⟨(x, y, f), hmem, rfl⟩)
  · intro x y hx hy
    have hchar := getCell_foldl_place
      (((coordTriples fnames).map (fun c => c.2.1)).foldl max 0 + 1)
      (((coordTriples fnames).map (fun c => c.1)).foldl max 0 + 1)
      (coordTriples fnames)
      (emptyGrid (((coordTriples fnames).map (fun c => c.1)).foldl max 0 + 1)
        (((coordTriples fnames).map (fun c => c.2.1)).foldl max 0 + 1))
      (by simp [emptyGrid])
      (by
        intro row hr
        rw [List.eq_of_mem_replicate hr]
        simp)
      x y (by omega) (by omega)
    rw [find?_reverse_eq_getLast?_filter] at hchar
    rcases hlast : ((coordTriples fnames).filter (fun c => c.1 == x && c.2.1 == y)).getLast?
      with _ | c
    · simp only [hlast] at hchar
      rw [getCell_emptyGrid] at hchar
      have hflt : (coordTriples fnames).filter (fun c => c.1 == x && c.2.1 == y) = [] :=
        (getLast?_eq_none_iff_nil _).mp hlast
      constructor
      · constructor
        · intro _
          intro f hf hpf
          have hmem : (x, y, f) ∈
              (coordTriples fnames).filter (fun c => c.1 == x && c.2.1 == y) :=
            List.mem_filter.mpr ⟨mem_coordTriples.mpr ⟨hf, hpf⟩, by simp⟩
          rw [hflt] at hmem
          cases hmem
        · intro _
          exact hchar
      · intro f hgf
        rw [hchar] at hgf
        cases hgf
    · simp only [hlast] at hchar
      have hcflt : c ∈ (coordTriples fnames).filter (fun c => c.1 == x && c.2.1 == y) :=
        mem_of_getLast?_eq hlast
      have hcmem := List.mem_filter.mp hcflt
      have hcx : c.1 = x := by simpa using ((Bool.and_eq_true _ _).mp hcmem.2).1
      have hcy : c.2.1 = y := by simpa using ((Bool.and_eq_true _ _).mp hcmem.2).2
      obtain ⟨hcf, hcp⟩ := mem_coordTriples.mp hcmem.1
      constructor
      · constructor
        · intro hnone
          rw [hchar] at hnone
          cases hnone
        · intro hforall
          exact absurd (by rw [hcp, hcx, hcy] :
            parse_xy_from_name c.2.2 = some (x, y)) (hforall c.2.2 hcf)
      · intro f hgf
        rw [hchar] at hgf
        have hfc : c.2.2 = f := by injection hgf
        refine ⟨hfc ▸ hcf, by rw [← hfc, hcp, hcx, hcy], ?_⟩
        intro f' hf' hpf'
        have hmem' : (x, y, f') ∈
            (coordTriples fnames).filter (fun c => c.1 == x && c.2.1 == y) :=
          List.mem_filter.mpr ⟨mem_coordTriples.mpr ⟨hf', hpf'⟩, by simp⟩
        have hpw : ((coordTriples fnames).filter
            (fun c => c.1 == x && c.2.1 == y)).Pairwise
            (fun a b => strLe a.2.2 b.2.2) :=
          (pairwise_coordTriples fnames hs).filter _
        rcases getLast?_pairwise_ub _ hpw c hlast (x, y, f') hmem' with heq | hR
        · have : f' = c.2.2 := congrArg (fun t => t.2.2) heq
          rw [this, hfc]
          exact strLe_refl f
        · rw [← hfc]
          exact hR

/-- C5 (witness): two sorted names both parsing to (0, 0): the grid exists and
its (0, 0) cell holds a name lexicographically ≥ both inputs (the later
duplicate wins). -/
theorem c5_witness :
    List.Pairwise strLe ["a_0_0.png", "b_0_0.png"] ∧
    ∃ ordered grid mx my,
      reorder_with_coordinates ["a_0_0.png", "b_0_0.png"] =
        some (ordered, mx + 1, my + 1, grid) ∧
      ∀ f, getCell grid 0 0 = some f → strLe "a_0_0.png" f ∧ strLe "b_0_0.png" f := by
  refine ⟨by decide, ?_⟩
  obtain ⟨o, g, mx, my, heq, _, _, _, hcells⟩ :=
    c5_theorem ["a_0_0.png", "b_0_0.png"] (by decide)
      ⟨"a_0_0.png", by decide, by decide⟩
  refine ⟨o, g, mx, my, heq, ?_⟩
  intro f hgf
  have h := (hcells 0 0 (Nat.zero_le _) (Nat.zero_le _)).2 f hgf
  exact ⟨h.2.2 "a_0_0.png" (by decide) (by decide),
    h.2.2 "b_0_0.png" (by decide) (by decide)⟩

theorem mem_commonList (mapL insL synL : List String) (prealL : Option (List String))
    (f : String) :
    f ∈ commonList mapL insL synL prealL ↔ inAllRequired mapL insL synL prealL f := by
  unfold commonList inAllRequired
  cases prealL with
  | none =>
    simp only [mem_sortStrings, List.mem_dedup, List.mem_filter, decide_eq_true_eq]
    constructor
    · rintro ⟨h1, h2, h3⟩
      exact ⟨h1, h2, h3, fun pl h => by cases h⟩
    · rintro ⟨h1, h2, h3, -⟩
      exact ⟨h1, h2, h3⟩
  | some pl =>
    simp only [mem_sortStrings, List.mem_dedup, List.mem_filter, decide_eq_true_eq]
    constructor
    · rintro ⟨h1, h2, h3, h4⟩
      exact ⟨h1, h2, h3, fun pl' h => by cases h; exact h4⟩
    · rintro ⟨h1, h2, h3, h4⟩
      exact ⟨h1, h2, h3, h4 pl rfl⟩

theorem gridChoice_ok (args : BuildArgs) (common : List String)
    (hS : 0 < args.block)
    (htpr : ∀ w, args.tiles_per_row = some w → 0 < w) :
    ∃ W H g, gridChoice args common = .ok (W, H, g) := by
  rcases hg : gridChoice args common with e | ⟨W, H, g⟩
  · exfalso
    unfold gridChoice at hg
    rcases hre : reorder_with_coordinates common with _ | ⟨o, W, H, g2⟩
    · simp only [hre] at hg
      rcases htp : args.tiles_per_row with _ | W
      · simp only [htp] at hg
        rw [if_neg (by
          have := Nat.le_max_left args.block (isqrt common.length)
          omega)] at hg
        cases hg
      · simp only [htp] at hg
        rw [if_neg (by have := htpr W htp; omega)] at hg
        cases hg
    · simp only [hre] at hg
      cases hg
  · exact ⟨W, H, g, rfl⟩

/-- C9: block aggregation exits non-zero exactly when the intersection of the
required channel listings is empty, and in that case no write events are
produced; for every non-empty intersection the run produces its write list and
exits zero, for EVERY behaviour of the four image codecs — per-file read
errors are absorbed by blank substitution and never abort (assuming a
positive block factor and, when supplied, a positive tiles-per-row). -/
theorem c9_theorem (args : BuildArgs) (mapL insL synL : List String)
    (prealL : Option (List String)) (mapD insD synD : String → Option PImage)
    (prealD : Option (String → Option PImage))
    (hS : 0 < args.block)
    (htpr : ∀ w, args.tiles_per_row = some w → 0 < w) :
    ((∃ f, inAllRequired mapL insL synL prealL f) →
      ∃ ws, mainNoReal args mapL insL synL prealL mapD insD synD prealD = .ok ws) ∧
    ((¬ ∃ f, inAllRequired mapL insL synL prealL f) →
      ∃ e, mainNoReal args mapL insL synL prealL mapD insD synD prealD = .error e) := by
  constructor
  · rintro ⟨f, hf⟩
    have hmem : f ∈ commonList mapL insL synL prealL :=
      (mem_commonList mapL insL synL prealL f).mpr hf
    have hne : ¬ (commonList mapL insL synL prealL).isEmpty = true := by
      rw [List.isEmpty_iff]
      intro h
      rw [h] at hmem
      cases hmem
    obtain ⟨W, H, g, hgc⟩ := gridChoice_ok args (commonList mapL insL synL prealL) hS htpr
    unfold mainNoReal ensure_sets
    rw [if_neg hne]
    simp only [hgc]
    rw [if_neg (by omega)]
    exact ⟨_, rfl⟩
  · intro hno
    have hempty : (commonList mapL insL synL prealL).isEmpty = true := by
      rw [List.isEmpty_iff]
      rcases hc : commonList mapL insL synL prealL with _ | ⟨a, t⟩
      · rfl
      · exfalso
        refine hno ⟨a, (mem_commonList mapL insL synL prealL a).mp ?_⟩
        rw [hc]
        exact List.mem_cons_self a t
    unfold mainNoReal ensure_sets
    rw [if_pos hempty]
    exact ⟨_, rfl⟩

/-- C9 (witness): with the 2×2 intersection present the run returns its write
list; with disjoint map/ins listings it exits with the fatal configuration
error. -/
theorem c9_witness :
    (∃ ws, mainNoReal ⟨3, none, PyOrder.row, NameMode.coord, none, false⟩
      tiles2x2 tiles2x2 tiles2x2 none diskAll256 diskAll256 diskAll256 none = .ok ws) ∧
    (∃ e, mainNoReal ⟨3, none, PyOrder.row, NameMode.coord, none, false⟩
      ["a.png"] ["b.png"] ["a.png"] none diskAll256 diskAll256 diskAll256 none = .error e) := by
  constructor
  · refine (c9_theorem ⟨3, none, PyOrder.row, NameMode.coord, none, false⟩
      tiles2x2 tiles2x2 tiles2x2 none diskAll256 diskAll256 diskAll256 none
      (by decide) (by intro w hw; cases hw)).1 ?_
    exact ⟨"0_0.png", by decide, by decide, by decide, fun pl h => by cases h⟩
  · refine (c9_theorem ⟨3, none, PyOrder.row, NameMode.coord, none, false⟩
      ["a.png"] ["b.png"] ["a.png"] none diskAll256 diskAll256 diskAll256 none
      (by decide) (by intro w hw; cases hw)).2 ?_
    rintro ⟨f, h1, h2, -, -⟩
    have e1 : read_pngs_sorted ["a.png"] = ["a.png"] := by decide
    have e2 : read_pngs_sorted ["b.png"] = ["b.png"] := by decide
    rw [e1] at h1
    rw [e2] at h2
    have hfa : f = "a.png" := by simpa using h1
    have hfb : f = "b.png" := by simpa using h2
    rw [hfa] at hfb
    exact absurd hfb (by decide)

theorem enum_flatMap_fst {α β : Type} (l : List α) (g : Nat → List β) :
    l.enum.flatMap (fun kb => g kb.1) = (List.range l.length).flatMap g := by
  rw [← List.enum_map_fst l, List.flatMap_map]

theorem length_flatMap_const {α β : Type} (l : List α) (f : α → List β) (c : Nat)
    (h : ∀ a, (f a).length = c) : (l.flatMap f).length = l.length * c := by
  induction l with
  | nil => simp
  | cons a t ih =>
    rw [List.flatMap_cons, List.length_append, ih, h a, List.length_cons]
    ring

theorem natDigitsAux_length_le : ∀ (d fuel n : Nat), n < 10 ^ d → 0 < d →
    (natDigitsAux fuel n).length ≤ d := by
  intro d
  induction d with
  | zero => intro fuel n _ hd; omega
  | succ d ih =>
    intro fuel n hn _
    cases fuel with
    | zero => simp [natDigitsAux]
    | succ fuel =>
      by_cases h10 : n < 10
      · simp [natDigitsAux, h10]
      · have hd1 : 0 < d := by
          by_contra hd0
          have : d = 0 := by omega
          rw [this] at hn
          simp at hn
          omega
        have hdiv : n / 10 < 10 ^ d := by
          apply Nat.div_lt_of_lt_mul
          calc n < 10 ^ (d + 1) := hn
          _ = 10 * 10 ^ d := by ring
        simp only [natDigitsAux, if_neg h10, List.length_append, List.length_cons,
          List.length_nil]
        have := ih fuel (n / 10) hdiv hd1
        omega

theorem zeroPad_length (k n : Nat) (h : (natDigits n).length ≤ k) :
    (zeroPad k n).length = k := by
  unfold zeroPad
  rw [List.length_append, List.length_replicate]
  omega


theorem flatMap_const_eq {α β γ : Type} (g : List γ) :
    ∀ (l1 : List α) (l2 : List β), l1.length = l2.length →
    l1.flatMap (fun _ => g) = l2.flatMap (fun _ => g) := by
  intro l1
  induction l1 with
  | nil =>
    intro l2 h
    cases l2 with
    | nil => rfl
    | cons b t => simp at h
  | cons a t ih =>
    intro l2 h
    cases l2 with
    | nil => simp at h
    | cons b t2 =>
      rw [List.flatMap_cons, List.flatMap_cons, ih t2 (by simpa using h)]

/-- C10: in sequential naming mode the write list consists of groups of four
consecutive channel files (real, map, ins, guidance); the k-th group (one per
block, row-major block order) shares the single stem `{k:05d}.png`, and for
every k below 100000 the numeric part of that stem is exactly five digits. -/
theorem c10_theorem (args : BuildArgs) (mapL insL synL : List String)
    (prealL : Option (List String)) (mapD insD synD : String → Option PImage)
    (prealD : Option (String → Option PImage)) (ws : List WriteEvent)
    (hseq : args.name_mode = NameMode.seq)
    (hok : mainNoReal args mapL insL synL prealL mapD insD synD prealD = .ok ws) :
    ∃ B, ws.map (fun w => w.stem) =
        (List.range B).flatMap (fun k =>
          List.replicate 4 (String.mk (zeroPad 5 k ++ ".png".data))) ∧
      ws.map (fun w => w.channel) =
        (List.range B).flatMap (fun _ =>
          [Channel.real, Channel.map, Channel.ins, Channel.guidance]) ∧
      ws.length = 4 * B ∧
      (∀ k, k < 100000 → (zeroPad 5 k).length = 5) := by
  unfold mainNoReal at hok
  rcases hes : ensure_sets mapL insL synL prealL with e | common <;> rw [hes] at hok
  · cases hok
  dsimp only at hok
  rcases hgc : gridChoice args common with e | res <;> rw [hgc] at hok
  · cases hok
  obtain ⟨W, H, g⟩ := res
  dsimp only at hok
  by_cases hb : args.block = 0
  · rw [if_pos hb] at hok
    cases hok
  rw [if_neg hb, hseq] at hok
  dsimp only [mkStem] at hok
  have hws := (Except.ok.inj hok).symm
  subst hws
  refine ⟨((pyRangeStep H args.block).flatMap fun byc =>
      List.map (fun bx => (bx, byc)) (pyRangeStep W args.block)).length, ?_, ?_, ?_, ?_⟩
  · rw [List.map_flatMap]
    simp only [List.map_cons, List.map_nil]
    simp only [show ∀ x : String, List.replicate 4 x = [x, x, x, x] from fun x => rfl]
    exact enum_flatMap_fst _ (fun k =>
      [String.mk (zeroPad 5 k ++ ".png".data), String.mk (zeroPad 5 k ++ ".png".data),
       String.mk (zeroPad 5 k ++ ".png".data), String.mk (zeroPad 5 k ++ ".png".data)])
  · rw [List.map_flatMap]
    simp only [List.map_cons, List.map_nil]
    exact flatMap_const_eq _ _ _ (by rw [List.enum_length, List.length_range])
  · refine (length_flatMap_const _ _ 4 ?_).trans ?_
    · exact fun _ => rfl
    · rw [List.enum_length, Nat.mul_comm]
  · intro k hk
    exact zeroPad_length 5 k (natDigitsAux_length_le 5 (k + 1) k (by omega) (by omega))

/-- C10 (witness): a 2×2 coordinate grid with block factor 1 yields four
blocks; the sixteen writes carry stems 00000.png through 00003.png, four
consecutive files each, obtained through `c10_theorem`. -/
theorem c10_witness :
    ∃ ws, mainNoReal ⟨1, none, PyOrder.row, NameMode.seq, none, false⟩
        tiles2x2 tiles2x2 tiles2x2 none diskAll256 diskAll256 diskAll256 none =
        .ok ws ∧
      ws.map (fun w => w.stem) =
        ["00000.png", "00000.png", "00000.png", "00000.png",
         "00001.png", "00001.png", "00001.png", "00001.png",
         "00002.png", "00002.png", "00002.png", "00002.png",
         "00003.png", "00003.png", "00003.png", "00003.png"] := by
  rcases hok : mainNoReal ⟨1, none, PyOrder.row, NameMode.seq, none, false⟩
      tiles2x2 tiles2x2 tiles2x2 none diskAll256 diskAll256 diskAll256 none with e | ws
  · exfalso
    have h2 : (mainNoReal ⟨1, none, PyOrder.row, NameMode.seq, none, false⟩
        tiles2x2 tiles2x2 tiles2x2 none diskAll256 diskAll256 diskAll256 none).toOption.isSome
        = true := by decide
    rw [hok] at h2
    simp [Except.toOption] at h2
  · obtain ⟨B, hstem, hchan, hlen, hdig⟩ :=
      c10_theorem ⟨1, none, PyOrder.row, NameMode.seq, none, false⟩
        tiles2x2 tiles2x2 tiles2x2 none diskAll256 diskAll256 diskAll256 none ws rfl hok
    refine ⟨ws, rfl, ?_⟩
    have hL : ws.length = 16 := by
      have h2 : (mainNoReal ⟨1, none, PyOrder.row, NameMode.seq, none, false⟩
          tiles2x2 tiles2x2 tiles2x2 none diskAll256 diskAll256 diskAll256 none).map
          List.length = .ok 16 := by decide
      rw [hok] at h2
      simpa [Except.map] using h2
    have hB : B = 4 := by omega
    rw [hstem, hB]
    decide

theorem enum_flatMap_snd {α β : Type} (l : List α) (g : α → List β) :
    l.enum.flatMap (fun kb => g kb.2) = l.flatMap g := by
  conv_rhs => rw [← List.enum_map_snd l]
  rw [List.flatMap_map]

/-- C8 (amended): in coordinate naming mode the block anchored at (bx, byc)
is written under the stem `{bx/S:0px d}_{byc/S:0py d}.png` — block-space
coordinates — where the pads (px, py) come from the FIRST NON-HOLE GRID CELL
in row-major scan order (not from the first successfully-parsed name in input
order): its last two stem-segment lengths when both segments are all-digit,
each zero component falling back to `len(str(max(1, W//S)))` resp.
`len(str(max(1, H//S)))`; an explicit coord_digits override sets both axes. -/
theorem c8_amended_theorem (args : BuildArgs) (mapL insL synL : List String)
    (prealL : Option (List String)) (mapD insD synD : String → Option PImage)
    (prealD : Option (String → Option PImage)) (common : List String)
    (W H : Nat) (g : Grid)
    (hcoord : args.name_mode = NameMode.coord)
    (hb : args.block ≠ 0)
    (hes : ensure_sets mapL insL synL prealL = .ok common)
    (hgc : gridChoice args common = .ok (W, H, g)) :
    ∃ ws, mainNoReal args mapL insL synL prealL mapD insD synD prealD = .ok ws ∧
      ws.map (fun w => w.stem) =
        ((pyRangeStep H args.block).flatMap (fun byc =>
          (pyRangeStep W args.block).map (fun bx => (bx, byc)))).flatMap (fun b =>
            List.replicate 4 (String.mk
              (zeroPad (computePads g W H args.block args.coord_digits).1
                  (b.1 / args.block) ++
                '_' :: (zeroPad (computePads g W H args.block args.coord_digits).2
                  (b.2 / args.block) ++ ".png".data)))) ∧
      (∀ d, args.coord_digits = some d →
        computePads g W H args.block args.coord_digits = (d, d)) ∧
      (args.coord_digits = none →
        ∀ a b, padFromSample (firstCellName g) = (a, b) →
          computePads g W H args.block args.coord_digits =
            (if a = 0 then (natDigits (max 1 (W / args.block))).length else a,
             if b = 0 then (natDigits (max 1 (H / args.block))).length else b)) := by
  rcases hok : mainNoReal args mapL insL synL prealL mapD insD synD prealD with e | ws
  · exfalso
    unfold mainNoReal at hok
    rw [hes] at hok
    dsimp only at hok
    rw [hgc] at hok
    dsimp only at hok
    rw [if_neg hb] at hok
    cases hok
  · refine ⟨ws, rfl, ?_, ?_, ?_⟩
    · unfold mainNoReal at hok
      rw [hes] at hok
      dsimp only at hok
      rw [hgc] at hok
      dsimp only at hok
      rw [if_neg hb, hcoord] at hok
      dsimp only [mkStem] at hok
      have hws := (Except.ok.inj hok).symm
      subst hws
      rw [List.map_flatMap]
      simp only [List.map_cons, List.map_nil]
      simp only [show ∀ x : String, List.replicate 4 x = [x, x, x, x] from fun x => rfl]
      exact enum_flatMap_snd _ (fun (b : Nat × Nat) =>
        [String.mk (zeroPad (computePads g W H args.block args.coord_digits).1
            (b.1 / args.block) ++
          '_' :: (zeroPad (computePads g W H args.block args.coord_digits).2
            (b.2 / args.block) ++ ".png".data)),
         String.mk (zeroPad (computePads g W H args.block args.coord_digits).1
            (b.1 / args.block) ++
          '_' :: (zeroPad (computePads g W H args.block args.coord_digits).2
            (b.2 / args.block) ++ ".png".data)),
         String.mk (zeroPad (computePads g W H args.block args.coord_digits).1
            (b.1 / args.block) ++
          '_' :: (zeroPad (computePads g W H args.block args.coord_digits).2
            (b.2 / args.block) ++ ".png".data)),
         String.mk (zeroPad (computePads g W H args.block args.coord_digits).1
            (b.1 / args.block) ++
          '_' :: (zeroPad (computePads g W H args.block args.coord_digits).2
            (b.2 / args.block) ++ ".png".data))])
    · intro d hd
      simp only [computePads, hd]
    · intro hnone a b hab
      simp only [computePads, hnone, hab]

/-- C8 (witness): the spec's example — the only input coordinate is
`00042_00007`, so coordinate-mode output padding is 5 digits on both axes. -/
theorem c8_amended_witness :
    ∃ W H g ws,
      gridChoice ⟨3, none, PyOrder.row, NameMode.coord, none, false⟩
        ["00042_00007.png"] = .ok (W, H, g) ∧
      mainNoReal ⟨3, none, PyOrder.row, NameMode.coord, none, false⟩
        ["00042_00007.png"] ["00042_00007.png"] ["00042_00007.png"] none
        diskAll256 diskAll256 diskAll256 none = .ok ws ∧
      computePads g W H 3 none = (5, 5) := by
  rcases hgc : gridChoice ⟨3, none, PyOrder.row, NameMode.coord, none, false⟩
      ["00042_00007.png"] with e | ⟨W, H, g⟩
  · exfalso
    have h2 : (gridChoice ⟨3, none, PyOrder.row, NameMode.coord, none, false⟩
        ["00042_00007.png"]).toOption.isSome = true := by decide
    rw [hgc] at h2
    simp [Except.toOption] at h2
  · obtain ⟨ws, hok, hstem, hover, hpads⟩ :=
      c8_amended_theorem ⟨3, none, PyOrder.row, NameMode.coord, none, false⟩
        ["00042_00007.png"] ["00042_00007.png"] ["00042_00007.png"] none
        diskAll256 diskAll256 diskAll256 none ["00042_00007.png"] W H g
        rfl (by decide) (by decide) hgc
    refine ⟨W, H, g, ws, rfl, hok, ?_⟩
    have hf : (gridChoice ⟨3, none, PyOrder.row, NameMode.coord, none, false⟩
        ["00042_00007.png"]).map (fun r => padFromSample (firstCellName r.2.2)) =
        .ok (5, 5) := by decide
    rw [hgc] at hf
    have hf2 : padFromSample (firstCellName g) = (5, 5) := by
      simpa [Except.map] using hf
    have h3 := hpads rfl 5 5 hf2
    simpa using h3

/-- C8 (counterexample): for the sorted input `{0_1.png, 10_0.png}` the first
successfully-parsed INPUT name is `0_1.png` (segment lengths 1 and 1), but the
source samples the first non-hole GRID cell in row-major order, which is
`10_0.png` at (10, 0), giving x-padding 2 — not 1. -/
theorem c8_counterexample :
    reorder_with_coordinates ["0_1.png", "10_0.png"] =
      some (["10_0.png", "0_1.png"], 11, 2,
        [[none, none, none, none, none, none, none, none, none, none, some "10_0.png"],
         [some "0_1.png", none, none, none, none, none, none, none, none, none, none]]) ∧
    firstCellName
        [[none, none, none, none, none, none, none, none, none, none, some "10_0.png"],
         [some "0_1.png", none, none, none, none, none, none, none, none, none, none]] =
      some "10_0.png" ∧
    computePads
        [[none, none, none, none, none, none, none, none, none, none, some "10_0.png"],
         [some "0_1.png", none, none, none, none, none, none, none, none, none, none]]
        11 2 3 none = (2, 1) ∧
    claimPadsFromFirstParsed ["0_1.png", "10_0.png"] = some (1, 1) ∧
    (2 : Nat) ≠ 1 := by decide
